import Mathlib

/-!
# MCVersions.net crawler: worker pool, retry loop, cancellation, counters

A shallow embedding of `main.go`, `crawler.go` and `file.go`.

* `File.Crawl` is a pure function of the results of the I/O calls it makes
  (`CrawlEnv`) and of the two progress counters.
* The goroutines (`main` from line 93 on, the `crawler` workers and
  `listenCtrlC`) are a labelled transition system on `State`; an execution is
  a list of `Event`s, each of which is one atomic statement of one goroutine, in
  the order in which the statements take effect. The goroutine `stats` only reads
  the counters and is left out. The two statements of `listenCtrlC` after the first
  interrupt (the store to `exitRequested` and `cancel()`) are one event, and an
  interrupt is an event when `listenCtrlC` receives it.
* `W` is the value of the flag `*concurrency` (a `uint`, 64 bits wide); `main` converts
  it with `int(...)`, passes it to `crawlerGroup.Add` and uses it as the bound of the
  loop that starts the workers. The counter of a `sync.WaitGroup` is an `int32`, and
  `Add` panics when the counter becomes negative.
* The part of `main` that fills the `jobs` channel (lines 63-91) is the
  function `mainEnqueue` on a buffered-channel model.
* The two log records (lines 106-110 and 131-135 of `main.go`) are field lists.
* The packages `backoff` and `logrus` are not among the sources; what the program
  needs of them is in `BackOff`, `NewExponentialBackOff`, `retryNext` and
  `logrusFatalCode`.
-/

namespace MCVersions

/-! ## Data model -/

/-- Go `error` values that occur in the program: the `fmt.Errorf("HTTP status %d", sc)`
of `File.Crawl`, and errors returned by the operating system or the HTTP client. -/
inductive Error where
  | httpStatus (sc : Int)
  | os (errno : Nat)
  deriving DecidableEq, Repr

/-- The struct `File` of `file.go` (byte slices as strings). -/
structure File where
  url : String
  version : String
  fileType : String
  deriving DecidableEq, Repr

/-- The `context.Context` created in `main`: only whether `cancel` was called. -/
structure Context where
  done : Bool
  deriving DecidableEq, Repr

/-- The package-level counters `totalBytes` and `numDownloaded` (both `int64`). -/
structure Counters where
  totalBytes : Int
  numDownloaded : Int
  deriving DecidableEq, Repr

/-- Two's complement wrap-around of `int64` arithmetic. -/
def wrapInt64 (x : Int) : Int := (x + 2 ^ 63) % 2 ^ 64 - 2 ^ 63

/-- Two's complement wrap-around of `int32` arithmetic. -/
def wrapInt32 (x : Int) : Int := (x + 2 ^ 31) % 2 ^ 32 - 2 ^ 31

/-- The conversion `int(u)` of a `uint` value `u`, both 64 bits wide. -/
def intOfUint (u : Nat) : Int := wrapInt64 u

/-- The method `Add` of `sync.WaitGroup` on a counter `v`: the counter is an `int32`, to
which the low 32 bits of `delta` are added; `none` when the new counter is negative, in
which case `Add` panics ("sync: negative WaitGroup counter"). -/
def WaitGroup.Add (v delta : Int) : Option Int :=
  if wrapInt32 (v + delta) < 0 then none else some (wrapInt32 (v + delta))

/-- The operation `atomic.AddInt64(&v, delta)`: the new value of `v`. -/
def atomicAddInt64 (v delta : Int) : Int := wrapInt64 (v + delta)

/-- The results of the I/O calls one invocation of `File.Crawl` makes, in source order.
A field is the result the call yields if the invocation gets that far. -/
structure CrawlEnv where
  /-- The result of `fasthttp.Do(req, res)`. -/
  doErr : Option Error
  /-- The result of `res.StatusCode()`. -/
  statusCode : Int
  /-- The result of `os.MkdirAll(folder, 0755)`. -/
  mkdirErr : Option Error
  /-- The value of `os.IsNotExist(err)` for the `err` of `os.Stat(fileName)`. -/
  statIsNotExist : Bool
  /-- The error of `os.OpenFile(fileName, O_CREATE|O_EXCL|O_WRONLY, 0666)`. -/
  openErr : Option Error
  /-- The `size` returned by `res.WriteTo(file)`. -/
  writeSize : Int
  /-- The error returned by `res.WriteTo(file)`. -/
  writeErr : Option Error
  /-- The result of `file.Close()`. -/
  closeErr : Option Error
  deriving DecidableEq, Repr

/-! ## `file.go` -/

/-- The method `(*File).Crawl` of `file.go`, lines 19-64: the returned error and the
counters after the call. The context argument is not consulted, as in the source. -/
def File.Crawl (_l : File) (_c : Context) (env : CrawlEnv) (g : Counters) :
    Option Error × Counters :=
  match env.doErr with
  | some _ => (none, g)
  | none =>
    if env.statusCode ≠ 200 then (some (Error.httpStatus env.statusCode), g)
    else
      match env.mkdirErr with
      | some _ => (none, g)
      | none =>
        if !env.statIsNotExist then (none, g)
        else
          match env.openErr with
          | some _ => (none, g)
          | none =>
            match env.writeErr with
            | some _ => (none, g)
            | none =>
              (env.closeErr,
                { totalBytes := atomicAddInt64 g.totalBytes env.writeSize,
                  numDownloaded := atomicAddInt64 g.numDownloaded 1 })

/-- The invocation reaches `res.WriteTo(file)` and the write succeeds (line 55 passes). -/
def CrawlEnv.written (env : CrawlEnv) : Prop :=
  env.doErr = none ∧ env.statusCode = 200 ∧ env.mkdirErr = none ∧
    env.statIsNotExist = true ∧ env.openErr = none ∧ env.writeErr = none

/-- The invocation reaches the `os.Stat` test of line 45 and takes the "Skipping File" branch. -/
def CrawlEnv.skips (env : CrawlEnv) : Prop :=
  env.doErr = none ∧ env.statusCode = 200 ∧ env.mkdirErr = none ∧ env.statIsNotExist = false

/-- The invocation fails in a call whose error `File.Crawl` does not return: the HTTP
request, or (once reached) `os.MkdirAll`, `os.OpenFile` or `res.WriteTo`. -/
def CrawlEnv.swallowed (env : CrawlEnv) : Prop :=
  env.doErr ≠ none ∨
    (env.doErr = none ∧ env.statusCode = 200 ∧
      (env.mkdirErr ≠ none ∨
        (env.mkdirErr = none ∧ env.statIsNotExist = true ∧
          (env.openErr ≠ none ∨ (env.openErr = none ∧ env.writeErr ≠ none)))))

instance (env : CrawlEnv) : Decidable env.written := by
  unfold CrawlEnv.written
  exact inferInstance

instance (env : CrawlEnv) : Decidable env.skips := by
  unfold CrawlEnv.skips
  exact inferInstance

instance (env : CrawlEnv) : Decidable env.swallowed := by
  unfold CrawlEnv.swallowed
  exact inferInstance

/-! ## The `jobs` channel and lines 63-91 of `main.go` -/

/-- A buffered Go channel of jobs: buffered items (oldest first), capacity, closed flag. -/
structure Chan where
  buf : List File
  cap : Nat
  closed : Bool
  deriving DecidableEq, Repr

/-- The call `make(chan Job, n)`. -/
def Chan.make (n : Nat) : Chan := { buf := [], cap := n, closed := false }

/-- The send `ch <- x` with no receiver waiting: `none` when the buffer is full, in which
case the sender blocks. -/
def Chan.send (ch : Chan) (x : File) : Option Chan :=
  if ch.buf.length < ch.cap then some { ch with buf := ch.buf ++ [x] } else none

/-- An element of a goquery selection, as far as `main` looks at it: `s.Attr("href")`
and `s.Parent().Parent().Attr("id")` (`Attr` yields the empty string when absent). -/
structure Element where
  href : Option String
  grandparentId : Option String
  deriving DecidableEq, Repr

/-- The listing document, as far as `main` looks at it: the selections
`doc.Find(".client")` and `doc.Find(".server")`. -/
structure Document where
  client : List Element
  server : List Element
  deriving DecidableEq, Repr

/-- The job built by the callbacks of lines 65-77 and 79-91 for an element with `href`. -/
def jobOf (fileType : String) (e : Element) : Option File :=
  match e.href with
  | some href => some { fileType := fileType, version := e.grandparentId.getD "", url := href }
  | none => none

/-- The loop `Each` with the callback of lines 65-77 (or 79-91): `none` when a send blocks. -/
def enqueueEach (fileType : String) : List Element → Chan → Option Chan
  | [], ch => some ch
  | e :: es, ch =>
    match jobOf fileType e with
    | some job => (ch.send job).bind (enqueueEach fileType es)
    | none => enqueueEach fileType es ch

/-- Lines 63-91 of `main`: the channel after the last enqueue, or `none` when a send blocks. -/
def mainEnqueue (doc : Document) : Option Chan :=
  (enqueueEach "client" doc.client (Chan.make (doc.client.length + doc.server.length))).bind
    (enqueueEach "server" doc.server)

/-! ## The retry policy -/

/-- A backoff policy as `backoff.Retry` consults it: `stops n` tells whether `NextBackOff`
answers `Stop` after failure number `n` (counted from 0) instead of a delay. -/
structure BackOff where
  stops : Nat → Bool

/-- Modelled from the spec: `backoff.NewExponentialBackOff` (package
`github.com/cenkalti/backoff`, not part of the sources). The spec gives the default policy
no bound on elapsed time or attempts: "unbounded attempts until success or cancellation,
matching default backoff behavior". -/
def NewExponentialBackOff : BackOff := { stops := fun _ => false }

/-- What the loop of `backoff.Retry` does with the result of a call of the operation. -/
inductive RetryNext where
  | ret (err : Option Error)
  | again
  deriving DecidableEq, Repr

/-- Modelled from the spec: one round of `backoff.Retry` (package
`github.com/cenkalti/backoff`, not part of the sources) after the operation returned `err`
with `n` failures before it: "On success, returns immediately"; on failure it waits and
retries unless the policy gives up, in which case it "returns an error upward". -/
def retryNext (b : BackOff) (n : Nat) : Option Error → RetryNext
  | none => RetryNext.ret none
  | some e => if b.stops n then RetryNext.ret (some e) else RetryNext.again

/-! ## The goroutines -/

/-- Where a `crawler` goroutine stands. -/
inductive WState where
  /-- At `for job := range jobs`, about to receive. -/
  | recv
  /-- A job is dequeued; about to load `exitRequested` (line 14). -/
  | check (job : File)
  /-- Inside `backoff.Retry`, about to call the operation, after `n` failed calls. -/
  | retry (job : File) (n : Nat)
  /-- The call `job.Crawl(c)` is running, after `n` failed calls. -/
  | inCrawl (job : File) (n : Nat)
  /-- The call `backoff.Retry` has returned `err`; about to test it (line 28). -/
  | afterRetry (err : Option Error)
  /-- The loop is left and the deferred `crawlerGroup.Done()` has run. -/
  | done
  deriving DecidableEq, Repr

/-- Where `main` stands from line 94 on. -/
inductive MainPc where
  /-- Before `crawlerGroup.Add(int(*concurrency))`. -/
  | add
  /-- At the head of the loop of line 95 with loop variable `i`. -/
  | spawn (i : Nat)
  /-- At `crawlerGroup.Wait()`, the channel being closed. -/
  | wait
  /-- The function `main` has returned. -/
  | returned
  deriving DecidableEq, Repr

/-- Where `listenCtrlC` stands: at the first or at the second `<-c`. -/
inductive ListenPc where
  | first
  | second
  deriving DecidableEq, Repr

/-- How the process ended. -/
inductive Exit where
  /-- The function `main` returned. -/
  | returned
  /-- The call `logrus.Fatal(err)` of `crawler`. -/
  | fatal (err : Error)
  /-- The call `os.Exit(255)` of `listenCtrlC`. -/
  | killed
  /-- A panic of the goroutine of `main`. -/
  | panicked
  deriving DecidableEq, Repr

/-- Modelled from the spec: the exit code of `logrus.Fatal` (package
`github.com/sirupsen/logrus`, not part of the sources), which is "logged at fatal level,
process exits non-zero". -/
def logrusFatalCode : Nat := 1

/-- The exit code of the process: 0 for a return of `main`, 255 for `os.Exit(255)`, 2 for
a panic. -/
def Exit.code : Exit → Nat
  | Exit.returned => 0
  | Exit.fatal _ => logrusFatalCode
  | Exit.killed => 255
  | Exit.panicked => 2

/-- The shared state of the process once the jobs are enqueued (line 93 of `main.go`). -/
structure State where
  /-- The channel `jobs`. -/
  jobs : Chan
  /-- The flag `exitRequested` (`int32`). -/
  exitRequested : Int
  /-- The context `c` handed to every `Crawl`. -/
  ctx : Context
  /-- The counters `totalBytes` and `numDownloaded`. -/
  counters : Counters
  /-- The counter of the wait group `crawlerGroup`. -/
  wg : Int
  /-- The `crawler` goroutines started so far, in order of start. -/
  workers : List WState
  mainPc : MainPc
  listener : ListenPc
  /-- The exit of the process, once it has ended. -/
  exit : Option Exit
  /-- The calls of `Crawl` started so far: worker and job, oldest first. -/
  calls : List (Nat × File)
  deriving DecidableEq, Repr

/-- The state at line 93, given the channel that lines 63-91 filled: all package-level
variables have their zero value, no worker runs. -/
def init (ch : Chan) : State :=
  { jobs := ch, exitRequested := 0, ctx := { done := false },
    counters := { totalBytes := 0, numDownloaded := 0 }, wg := 0, workers := [],
    mainPc := MainPc.add, listener := ListenPc.first, exit := none, calls := [] }

/-- The next statement of worker `i` of `crawler.go`, other than the return of a running
`Crawl`: the receive of line 13 (blocking on an open empty channel, leaving the loop on a
closed empty one), the test of line 14, the call of line 19, the test of line 28. -/
def crawler (s : State) (i : Nat) : Option State :=
  match s.workers[i]? with
  | some WState.recv =>
    match s.jobs.buf with
    | job :: rest =>
      some { s with jobs := { s.jobs with buf := rest },
                    workers := s.workers.set i (WState.check job) }
    | [] =>
      if s.jobs.closed then
        some { s with workers := s.workers.set i WState.done, wg := s.wg - 1 }
      else none
  | some (WState.check job) =>
    if s.exitRequested ≠ 0 then
      some { s with workers := s.workers.set i WState.done, wg := s.wg - 1 }
    else some { s with workers := s.workers.set i (WState.retry job 0) }
  | some (WState.retry job n) =>
    some { s with workers := s.workers.set i (WState.inCrawl job n),
                  calls := s.calls ++ [(i, job)] }
  | some (WState.afterRetry (some err)) => some { s with exit := some (Exit.fatal err) }
  | some (WState.afterRetry none) => some { s with workers := s.workers.set i WState.recv }
  | _ => none

/-- The return of the `Crawl` call running in worker `i`, its I/O having gone as in `env`
(lines 19-25 of `crawler.go`), and the reaction of `backoff.Retry` to the result. -/
def crawlReturn (b : BackOff) (s : State) (i : Nat) (env : CrawlEnv) : Option State :=
  match s.workers[i]? with
  | some (WState.inCrawl job n) =>
    let r := job.Crawl s.ctx env s.counters
    some { s with
      counters := r.2,
      workers := s.workers.set i
        (match retryNext b n r.1 with
         | RetryNext.ret err => WState.afterRetry err
         | RetryNext.again => WState.retry job (n + 1)) }
  | _ => none

/-- The next statement of `main` from line 94 on, with `W = *concurrency`: the call
`crawlerGroup.Add(int(*concurrency))`, which ends the process when it panics, one round
of the loop `for i := 0; i < int(*concurrency); i++` that starts the workers,
`close(jobs)` once the loop is over, and `crawlerGroup.Wait()` followed by the return of
`main`. -/
def main (W : Nat) (s : State) : Option State :=
  match s.mainPc with
  | MainPc.add =>
    match WaitGroup.Add s.wg (intOfUint W) with
    | some v => some { s with wg := v, mainPc := MainPc.spawn 0 }
    | none => some { s with exit := some Exit.panicked }
  | MainPc.spawn i =>
    if (i : Int) < intOfUint W then
      some { s with workers := s.workers ++ [WState.recv], mainPc := MainPc.spawn (i + 1) }
    else some { s with jobs := { s.jobs with closed := true }, mainPc := MainPc.wait }
  | MainPc.wait =>
    if s.wg = 0 then some { s with exit := some Exit.returned, mainPc := MainPc.returned }
    else none
  | MainPc.returned => none

/-- The reaction of `listenCtrlC` to an interrupt received on its channel: the first one
stores 1 in `exitRequested` and calls `cancel`, the second one calls `os.Exit(255)`. -/
def listenCtrlC (s : State) : State :=
  match s.listener with
  | ListenPc.first =>
    { s with exitRequested := 1, ctx := { done := true }, listener := ListenPc.second }
  | ListenPc.second => { s with exit := some Exit.killed }

/-- One atomic step of one goroutine. -/
inductive Event where
  /-- Worker `i` executes its next statement. -/
  | run (i : Nat)
  /-- The `Crawl` call running in worker `i` returns. -/
  | ret (i : Nat) (env : CrawlEnv)
  /-- The goroutine of `main` executes its next statement. -/
  | main
  /-- The goroutine of `listenCtrlC` receives an interrupt. -/
  | sigint
  deriving DecidableEq, Repr

/-- The state after the event, `none` when the event cannot happen: the goroutine is
blocked or does not exist, or the process has ended. -/
def step (b : BackOff) (W : Nat) (s : State) (e : Event) : Option State :=
  if s.exit.isSome then none
  else
    match e with
    | Event.run i => crawler s i
    | Event.ret i env => crawlReturn b s i env
    | Event.main => main W s
    | Event.sigint => some (listenCtrlC s)

/-- The state after a sequence of events, `none` when one of them cannot happen. -/
def run (b : BackOff) (W : Nat) : State → List Event → Option State
  | s, [] => some s
  | s, e :: tr => (step b W s e).bind fun s' => run b W s' tr

/-! ## The log records -/

/-- A value of a log field. Floating-point values are kept symbolic. -/
inductive LogValue where
  /-- An `int64`. -/
  | int64 (v : Int)
  /-- The `float64` value `d.Seconds()` of a duration of `ns` nanoseconds. -/
  | seconds (ns : Int)
  /-- The `float64` value `float64(total) / dur` for `dur` as above. -/
  | rate (total : Int) (ns : Int)
  /-- The string `fmt.Sprintf("%.0f", float64(total)/dur)`. -/
  | rateText (total : Int) (ns : Int)
  deriving DecidableEq, Repr

/-- The record logged by `stats` every second (lines 128-135 of `main.go`), `ns` being
`time.Since(startTime)`. -/
def stats (g : Counters) (ns : Int) : List (String × LogValue) :=
  [("files", LogValue.int64 g.numDownloaded),
   ("total_bytes", LogValue.int64 g.totalBytes),
   ("avg_rate", LogValue.rateText g.totalBytes ns)]

/-- The record logged at the end of `main` (lines 103-110 of `main.go`). -/
def mainSummary (g : Counters) (ns : Int) : List (String × LogValue) :=
  [("total_bytes", LogValue.int64 g.totalBytes),
   ("dur", LogValue.seconds ns),
   ("avg_rate", LogValue.rate g.totalBytes ns)]

/-- The field names of a record. -/
def fieldNames (r : List (String × LogValue)) : List String := r.map Prod.fst

/-! ## Sample inputs -/

/-- A client job. -/
def sampleJob : File :=
  { url := "https://example.org/1.0/client.jar", version := "1.0", fileType := "client" }

/-- A server job. -/
def sampleJob2 : File :=
  { url := "https://example.org/1.0/server.jar", version := "1.0", fileType := "server" }

/-- A download that succeeds: 10 bytes written, the file closed. -/
def envOk : CrawlEnv :=
  { doErr := none, statusCode := 200, mkdirErr := none, statIsNotExist := true,
    openErr := none, writeSize := 10, writeErr := none, closeErr := none }

/-- A download whose 10 bytes are written and whose `file.Close()` then fails. -/
def envCloseFails : CrawlEnv := { envOk with closeErr := some (Error.os 5) }

/-- A response with status 404. -/
def envNotFound : CrawlEnv := { envOk with statusCode := 404 }

/-- A request that fails in `fasthttp.Do`. -/
def envDoFails : CrawlEnv := { envOk with doErr := some (Error.os 110) }

/-- A channel holding `sampleJob` only, as `main` leaves it for a listing with one link. -/
def oneJob : Chan := { buf := [sampleJob], cap := 1, closed := false }

/-- The state in which worker 0 holds `sampleJob` after an interrupt. -/
def heldAfterInterrupt : State :=
  { init { oneJob with buf := [] } with
    exitRequested := 1, ctx := { done := true }, wg := 1,
    workers := [WState.check sampleJob], mainPc := MainPc.spawn 1,
    listener := ListenPc.second }

/-- The state in which worker 0 runs `Crawl` on `sampleJob`, no interrupt received. -/
def crawlingState : State :=
  { init { oneJob with buf := [] } with
    wg := 1, workers := [WState.inCrawl sampleJob 0], mainPc := MainPc.spawn 1,
    calls := [(0, sampleJob)] }

/-- A policy that gives up at the first failure. -/
def giveUpAtOnce : BackOff := { stops := fun _ => true }

/-- The state in which the retry loop of worker 0 has returned the error of a 404
response for the first of two jobs. -/
def retryFailedState : State :=
  { init { buf := [sampleJob2], cap := 2, closed := false } with
    wg := 1, workers := [WState.afterRetry (some (Error.httpStatus 404))],
    mainPc := MainPc.spawn 1, calls := [(0, sampleJob)] }

/-- The state in which worker 0 is about to enter its first `Crawl` call on `sampleJob`. -/
def retryingState : State :=
  { init { oneJob with buf := [] } with
    wg := 1, workers := [WState.retry sampleJob 0], mainPc := MainPc.spawn 1 }

/-- Two jobs, as `main` leaves them in the channel for a listing with two links. -/
def twoJobs : Chan := { buf := [sampleJob, sampleJob2], cap := 2, closed := false }

/-- An execution of two workers on `twoJobs` in which each worker takes one job. -/
def twoWorkersRun : List Event :=
  [Event.main, Event.main, Event.main, Event.run 0, Event.run 1, Event.run 0, Event.run 0,
   Event.ret 0 envOk, Event.run 0, Event.run 1, Event.run 1, Event.ret 1 envDoFails,
   Event.run 1, Event.main, Event.run 0, Event.run 1, Event.main]

/-! ## Quantities used in the proofs -/

/-- The events of a worker that goes through the retry loop with the given results:
for each result, the call of `Crawl` and its return. -/
def attempts (i : Nat) : List CrawlEnv → List Event
  | [] => []
  | env :: envs => Event.run i :: Event.ret i env :: attempts i envs

/-- Whether the event is a step of worker `i`. -/
def Event.byWorker (i : Nat) : Event → Bool
  | Event.run k => decide (k = i)
  | Event.ret k _ => decide (k = i)
  | _ => false

/-- The sum of a quantity over the workers. -/
def sumOver (f : WState → Nat) (l : List WState) : Nat := (l.map f).sum

/-- Counts a worker that has left its loop. -/
def isDone : WState → Nat
  | WState.done => 1
  | _ => 0

/-- Counts a worker to whom the retry loop has returned an error. -/
def isFailed : WState → Nat
  | WState.afterRetry (some _) => 1
  | _ => 0

/-- Counts job `j` when a worker has dequeued it and not yet passed it to `Crawl`. -/
def heldCount (j : File) : WState → Nat
  | WState.check job => [job].count j
  | WState.retry job _ => [job].count j
  | _ => 0

/-- The number of steps a worker has ahead of it before its next receive, plus one. -/
def weight : WState → Nat
  | WState.recv => 1
  | WState.check _ => 5
  | WState.retry _ _ => 4
  | WState.inCrawl _ _ => 3
  | WState.afterRetry _ => 2
  | WState.done => 0

/-- The value `main` has added to the wait group. -/
def mainAdded : MainPc → Nat → Nat
  | MainPc.add, _ => 0
  | _, W => W

/-- The number of workers `main` has started. -/
def nSpawned : MainPc → Nat → Nat
  | MainPc.add, _ => 0
  | MainPc.spawn k, _ => k
  | _, W => W

/-- Whether `main` has closed the channel. -/
def pcClosed : MainPc → Bool
  | MainPc.wait => true
  | MainPc.returned => true
  | _ => false

/-- The exit of the process when only `main` can end it. -/
def pcExit : MainPc → Option Exit
  | MainPc.returned => some Exit.returned
  | _ => none

/-- The number of steps `main` has ahead of it, plus one for each worker still to start. -/
def mainWeight : MainPc → Nat → Nat
  | MainPc.add, W => 2 * W + 3
  | MainPc.spawn k, W => 2 * (W - k) + 2
  | MainPc.wait, _ => 1
  | MainPc.returned, _ => 0

/-- The number of steps the whole pool has ahead of it. -/
def potential (W : Nat) (s : State) : Nat :=
  5 * s.jobs.buf.length + sumOver weight s.workers + mainWeight s.mainPc W

/-- An event other than an interrupt or the return of a `Crawl` call with an error. -/
def Event.quiet : Event → Prop
  | Event.sigint => False
  | Event.ret _ env => ∀ (l : File) (c : Context) (g : Counters), (l.Crawl c env g).1 = none
  | _ => True

/-- What holds of every state of an execution without interrupts and failures. -/
structure Inv (W : Nat) (jobs0 : List File) (s : State) : Prop where
  flag : s.exitRequested = 0
  failed : sumOver isFailed s.workers = 0
  cnt : ∀ j, (s.calls.map Prod.snd).count j + sumOver (heldCount j) s.workers
      + s.jobs.buf.count j = jobs0.count j
  wg : s.wg + (sumOver isDone s.workers : Int) = (mainAdded s.mainPc W : Int)
  len : s.workers.length = nSpawned s.mainPc W
  le : nSpawned s.mainPc W ≤ W
  closed : s.jobs.closed = pcClosed s.mainPc
  exit : s.exit = pcExit s.mainPc
  fin : s.mainPc = MainPc.returned → s.wg = 0
  drained : sumOver isDone s.workers = 0 ∨ (s.jobs.closed = true ∧ s.jobs.buf = [])
  who : ∀ c ∈ s.calls, c.1 < s.workers.length

/-! # Theorems -/

/-! ## `File.Crawl`: counters and errors -/

/-- C4 (as stated, refuted): a call whose `file.Close()` fails returns a non-nil error,
yet it has already added the size to `totalBytes` and 1 to `numDownloaded`. -/
theorem Crawl_counters_counterexample :
    (sampleJob.Crawl { done := false } envCloseFails { totalBytes := 0, numDownloaded := 0 }).1
        = some (Error.os 5) ∧
      (sampleJob.Crawl { done := false } envCloseFails { totalBytes := 0, numDownloaded := 0 }).2
        = { totalBytes := 10, numDownloaded := 1 } := by
  constructor
  · rfl
  · simp [File.Crawl, envCloseFails, envOk, atomicAddInt64, wrapInt64]

/-- C4 (amended): `File.Crawl` changes the counters exactly on a call whose body write
succeeded: such a call adds the written size to `totalBytes` and 1 to `numDownloaded` and
returns whatever `file.Close()` returns; a call that skips because the target exists
returns nil with both counters unchanged; every other call leaves both counters unchanged
and returns nil or, for a status other than 200, the HTTP status error. -/
theorem Crawl_counters (l : File) (c : Context) (env : CrawlEnv) (g : Counters) :
    (env.written ∧ (l.Crawl c env g).1 = env.closeErr ∧
        (l.Crawl c env g).2 = { totalBytes := atomicAddInt64 g.totalBytes env.writeSize,
                                numDownloaded := atomicAddInt64 g.numDownloaded 1 }) ∨
      (env.skips ∧ (l.Crawl c env g).1 = none ∧ (l.Crawl c env g).2 = g) ∨
      (¬ env.written ∧ ¬ env.skips ∧ (l.Crawl c env g).2 = g ∧
        ((l.Crawl c env g).1 = none ∨
          (env.doErr = none ∧ env.statusCode ≠ 200 ∧
            (l.Crawl c env g).1 = some (Error.httpStatus env.statusCode)))) := by
  obtain ⟨d, sc, m, st, o, sz, w, cl⟩ := env
  unfold File.Crawl CrawlEnv.written CrawlEnv.skips
  cases d <;> cases m <;> cases st <;> cases o <;> cases w <;>
    by_cases h : sc = 200 <;> simp [h]

/-! ## The log records -/

/-- C8 (as stated, refuted): neither record has a field `items_completed`, and the two
records do not have the same field names. -/
theorem log_records_counterexample :
    "items_completed" ∉ fieldNames (stats { totalBytes := 0, numDownloaded := 0 } 1) ∧
      "items_completed" ∉ fieldNames (mainSummary { totalBytes := 0, numDownloaded := 0 } 1) ∧
      "files" ∈ fieldNames (stats { totalBytes := 0, numDownloaded := 0 } 1) ∧
      "files" ∉ fieldNames (mainSummary { totalBytes := 0, numDownloaded := 0 } 1) := by
  decide

/-- C8 (amended): the record of `stats` carries exactly the fields `files`, `total_bytes`
and `avg_rate`, the final record of `main` exactly `total_bytes`, `dur` and `avg_rate`;
the fields they share are `total_bytes`, with the same value, and `avg_rate`, a formatted
string in `stats` and a `float64` in `main`. -/
theorem log_records_fields (g : Counters) (ns : Int) :
    fieldNames (stats g ns) = ["files", "total_bytes", "avg_rate"] ∧
      fieldNames (mainSummary g ns) = ["total_bytes", "dur", "avg_rate"] ∧
      (fieldNames (stats g ns)).filter (fun k => decide (k ∈ fieldNames (mainSummary g ns)))
        = ["total_bytes", "avg_rate"] ∧
      (stats g ns).lookup "total_bytes" = (mainSummary g ns).lookup "total_bytes" ∧
      (stats g ns).lookup "avg_rate" = some (LogValue.rateText g.totalBytes ns) ∧
      (mainSummary g ns).lookup "avg_rate" = some (LogValue.rate g.totalBytes ns) := by
  refine ⟨rfl, rfl, ?_, ?_, ?_, ?_⟩
  · simp [fieldNames, stats, mainSummary, List.filter]
  · simp [stats, mainSummary, List.lookup]
  · simp [stats, List.lookup]
  · simp [mainSummary, List.lookup]

/-! ## Filling the `jobs` channel -/

/-- The loop `Each` never blocks while the buffer has room for every selected element. -/
theorem enqueueEach_room (fileType : String) (es : List Element) (ch : Chan)
    (h : ch.buf.length + es.length ≤ ch.cap) :
    enqueueEach fileType es ch
      = some { ch with buf := ch.buf ++ es.filterMap (jobOf fileType) } := by
  induction es generalizing ch with
  | nil => simp [enqueueEach]
  | cons e es ih =>
    simp only [List.length_cons] at h
    unfold enqueueEach
    cases hj : jobOf fileType e with
    | none =>
      simp only [List.filterMap_cons, hj]
      exact ih ch (by omega)
    | some job =>
      have hlt : ch.buf.length < ch.cap := by omega
      simp only [Chan.send, hlt, if_true, Option.some_bind, List.filterMap_cons, hj]
      rw [ih _ (by simp; omega)]
      simp

/-- C10: the channel is made with capacity `#client + #server`; the enqueues of `main`
all go through without blocking; the channel then holds one job for each client element
with an `href` followed by one job for each server element with an `href`, which is at
most the capacity. -/
theorem mainEnqueue_never_blocks (doc : Document) :
    mainEnqueue doc
        = some { buf := doc.client.filterMap (jobOf "client")
                   ++ doc.server.filterMap (jobOf "server"),
                 cap := doc.client.length + doc.server.length,
                 closed := false } ∧
      (doc.client.filterMap (jobOf "client") ++ doc.server.filterMap (jobOf "server")).length
        ≤ doc.client.length + doc.server.length ∧
      (Chan.make (doc.client.length + doc.server.length)).cap
        = doc.client.length + doc.server.length := by
  refine ⟨?_, ?_, rfl⟩
  · unfold mainEnqueue
    rw [enqueueEach_room "client" doc.client _ (by simp [Chan.make])]
    simp only [Option.some_bind]
    rw [enqueueEach_room "server" doc.server _ (by
      simp only [Chan.make, List.nil_append]
      have := List.length_filterMap_le (jobOf "client") doc.client
      omega)]
    simp [Chan.make]
  · have h1 := List.length_filterMap_le (jobOf "client") doc.client
    have h2 := List.length_filterMap_le (jobOf "server") doc.server
    simp only [List.length_append]
    omega

/-! ## Basic facts about steps -/

theorem step_live {b : BackOff} {W : Nat} {s s' : State} {e : Event}
    (h : step b W s e = some s') : s.exit = none := by
  unfold step at h
  cases hx : s.exit with
  | none => rfl
  | some x => simp [hx] at h

theorem step_of_live {b : BackOff} {W : Nat} {s : State} (e : Event) (h : s.exit = none) :
    step b W s e =
      match e with
      | Event.run i => crawler s i
      | Event.ret i env => crawlReturn b s i env
      | Event.main => main W s
      | Event.sigint => some (listenCtrlC s) := by
  unfold step
  simp [h]

theorem step_exited {b : BackOff} {W : Nat} {s : State} {x : Exit} (e : Event)
    (h : s.exit = some x) : step b W s e = none := by
  unfold step
  simp [h]

theorem run_append (b : BackOff) (W : Nat) (s : State) (t1 t2 : List Event) :
    run b W s (t1 ++ t2) = (run b W s t1).bind fun s' => run b W s' t2 := by
  induction t1 generalizing s with
  | nil => simp [run]
  | cons e t1 ih =>
    simp only [List.cons_append, run]
    cases step b W s e with
    | none => simp
    | some s1 => simp [ih]

/-! ## What a step leaves alone -/

theorem crawler_frame {s s' : State} {k i : Nat} (h : crawler s k = some s') (hk : k ≠ i) :
    s'.workers[i]? = s.workers[i]? ∧
      ∃ l, s'.calls = s.calls ++ l ∧ ∀ c ∈ l, c.1 = k := by
  unfold crawler at h
  split at h
  · split at h
    · cases h
      exact ⟨by simp [List.getElem?_set_ne hk], [], by simp⟩
    · split at h
      · cases h
        exact ⟨by simp [List.getElem?_set_ne hk], [], by simp⟩
      · cases h
  · split at h <;> cases h <;>
      exact ⟨by simp [List.getElem?_set_ne hk], [], by simp⟩
  · cases h
    exact ⟨by simp [List.getElem?_set_ne hk], _, rfl, by simp⟩
  · cases h
    exact ⟨rfl, [], by simp⟩
  · cases h
    exact ⟨by simp [List.getElem?_set_ne hk], [], by simp⟩
  · cases h

theorem crawlReturn_frame {b : BackOff} {s s' : State} {k i : Nat} {env : CrawlEnv}
    (h : crawlReturn b s k env = some s') (hk : k ≠ i) :
    s'.workers[i]? = s.workers[i]? ∧ s'.calls = s.calls := by
  unfold crawlReturn at h
  split at h
  · cases h
    exact ⟨by simp [List.getElem?_set_ne hk], rfl⟩
  · cases h

theorem main_frame {W : Nat} {s s' : State} {i : Nat} (h : main W s = some s')
    (hi : i < s.workers.length) :
    s'.workers[i]? = s.workers[i]? ∧ s'.calls = s.calls := by
  unfold main at h
  split at h
  · split at h <;> cases h <;> exact ⟨rfl, rfl⟩
  · split at h
    · cases h
      exact ⟨by simp [List.getElem?_append_left hi], rfl⟩
    · cases h
      exact ⟨rfl, rfl⟩
  · split at h
    · cases h
      exact ⟨rfl, rfl⟩
    · cases h
  · cases h

/-- A worker that has left its loop takes no further step, whatever the others do. -/
theorem step_done_stays {b : BackOff} {W : Nat} {s s' : State} {e : Event} {i : Nat}
    (h : step b W s e = some s') (hd : s.workers[i]? = some WState.done) :
    s'.workers[i]? = some WState.done ∧ e ≠ Event.run i ∧ (∀ env, e ≠ Event.ret i env) ∧
      s'.calls.filter (fun c => decide (c.1 = i)) = s.calls.filter (fun c => decide (c.1 = i)) := by
  have hl := step_live h
  rw [step_of_live e hl] at h
  have hlen : i < s.workers.length := by
    by_contra hc
    rw [List.getElem?_eq_none (by omega)] at hd
    cases hd
  cases e with
  | run k =>
    simp only at h
    by_cases hk : k = i
    · subst hk
      unfold crawler at h
      simp [hd] at h
    · obtain ⟨h1, l, h2, h3⟩ := crawler_frame h hk
      refine ⟨by rw [h1, hd], by simpa using hk, by simp, ?_⟩
      rw [h2, List.filter_append]
      have : l.filter (fun c => decide (c.1 = i)) = [] := by
        rw [List.filter_eq_nil_iff]
        intro c hc
        simp [h3 c hc, hk]
      simp [this]
  | ret k env =>
    simp only at h
    by_cases hk : k = i
    · subst hk
      unfold crawlReturn at h
      simp [hd] at h
    · obtain ⟨h1, h2⟩ := crawlReturn_frame h hk
      refine ⟨by rw [h1, hd], by simp, ?_, by rw [h2]⟩
      intro env' hc
      cases hc
      exact hk rfl
  | main =>
    simp only at h
    obtain ⟨h1, h2⟩ := main_frame h hlen
    exact ⟨by rw [h1, hd], by simp, by simp, by rw [h2]⟩
  | sigint =>
    simp only [Option.some.injEq] at h
    subst h
    unfold listenCtrlC
    split <;> exact ⟨hd, by simp, by simp, rfl⟩

theorem run_done_stays {b : BackOff} {W : Nat} {i : Nat} (tr : List Event) {s s' : State}
    (h : run b W s tr = some s') (hd : s.workers[i]? = some WState.done) :
    s'.workers[i]? = some WState.done ∧
      (∀ e ∈ tr, e ≠ Event.run i ∧ ∀ env, e ≠ Event.ret i env) ∧
      s'.calls.filter (fun c => decide (c.1 = i)) = s.calls.filter (fun c => decide (c.1 = i)) := by
  induction tr generalizing s with
  | nil =>
    simp only [run, Option.some.injEq] at h
    subst h
    exact ⟨hd, by simp, rfl⟩
  | cons e tr ih =>
    simp only [run] at h
    cases hs : step b W s e with
    | none => simp [hs] at h
    | some s1 =>
      simp only [hs, Option.some_bind] at h
      obtain ⟨h1, h2, h3, h4⟩ := step_done_stays hs hd
      obtain ⟨k1, k2, k3⟩ := ih h h1
      refine ⟨k1, ?_, by rw [k3, h4]⟩
      intro e' he'
      rcases List.mem_cons.mp he' with rfl | hmem
      · exact ⟨h2, h3⟩
      · exact k2 e' hmem

/-- The step of a worker that finds `exitRequested` set at line 14. -/
theorem crawler_check_set {b : BackOff} {W : Nat} {s : State} {i : Nat} {job : File}
    (hw : s.workers[i]? = some (WState.check job)) (hx : s.exitRequested ≠ 0)
    (hlive : s.exit = none) :
    step b W s (Event.run i)
      = some { s with workers := s.workers.set i WState.done, wg := s.wg - 1 } := by
  rw [step_of_live _ hlive]
  simp [crawler, hw, hx]

theorem lt_length_of_getElem? {l : List WState} {i : Nat} {a : WState}
    (h : l[i]? = some a) : i < l.length := by
  by_contra hc
  rw [List.getElem?_eq_none (by omega)] at h
  cases h

theorem getElem?_set_self_of_some {l : List WState} {i : Nat} {a : WState} (w : WState)
    (h : l[i]? = some a) : (l.set i w)[i]? = some w := by
  have hlen : i < l.length := by
    by_contra hc
    rw [List.getElem?_eq_none (by omega)] at h
    cases h
  simp [List.getElem?_set_self, hlen]

/-! ## Soft cancellation in `crawler` -/

/-- C1 (as stated, refuted): with one worker and one job, an interrupt before the worker
receives makes the worker dequeue the job with `exitRequested = 1` at its check; the
worker then leaves the loop and the run ends normally with no `Crawl` call at all. -/
theorem crawler_dequeued_job_counterexample :
    (run NewExponentialBackOff 1 (init oneJob)
        [Event.main, Event.main, Event.sigint, Event.run 0]).map
        (fun s => (s.workers, s.exitRequested, s.jobs.buf))
      = some ([WState.check sampleJob], 1, []) ∧
    (run NewExponentialBackOff 1 (init oneJob)
        [Event.main, Event.main, Event.sigint, Event.run 0, Event.run 0, Event.main,
          Event.main]).map
        (fun s => (s.workers, s.calls, s.exit))
      = some ([WState.done], [], some Exit.returned) := by
  constructor <;> rfl

/-- C1 (amended): a worker that finds `exitRequested` nonzero at the check following a
dequeue does not call `Crawl` on the dequeued job: its next step leaves the loop and
signals `crawlerGroup.Done`, the job is neither crawled nor put back in the queue, and
no later execution adds a `Crawl` call of that worker. -/
theorem crawler_drops_dequeued_job (b : BackOff) (W : Nat) (s : State) (i : Nat) (job : File)
    (hw : s.workers[i]? = some (WState.check job)) (hx : s.exitRequested ≠ 0)
    (hlive : s.exit = none) :
    ∃ s', step b W s (Event.run i) = some s' ∧
      s'.workers[i]? = some WState.done ∧ s'.wg = s.wg - 1 ∧
      s'.calls = s.calls ∧ s'.jobs = s.jobs ∧
      ∀ tr s'', run b W s' tr = some s'' →
        s''.calls.filter (fun c => decide (c.1 = i))
          = s.calls.filter (fun c => decide (c.1 = i)) := by
  refine ⟨_, crawler_check_set hw hx hlive, getElem?_set_self_of_some _ hw, rfl, rfl, rfl, ?_⟩
  intro tr s'' hrun
  exact (run_done_stays tr hrun (getElem?_set_self_of_some _ hw)).2.2

/-- Witness for C1 (amended), at the state reached in the counterexample run. -/
theorem crawler_drops_dequeued_job_witness :
    run NewExponentialBackOff 1 (init oneJob)
        [Event.main, Event.main, Event.sigint, Event.run 0] = some heldAfterInterrupt ∧
    ∃ s', step NewExponentialBackOff 1 heldAfterInterrupt (Event.run 0) = some s' ∧
      s'.workers[0]? = some WState.done ∧ s'.wg = heldAfterInterrupt.wg - 1 ∧
      s'.calls = heldAfterInterrupt.calls ∧ s'.jobs = heldAfterInterrupt.jobs ∧
      ∀ tr s'', run NewExponentialBackOff 1 s' tr = some s'' →
        s''.calls.filter (fun c => decide (c.1 = 0))
          = heldAfterInterrupt.calls.filter (fun c => decide (c.1 = 0)) :=
  ⟨rfl, crawler_drops_dequeued_job NewExponentialBackOff 1 heldAfterInterrupt 0 sampleJob
    rfl (by decide) rfl⟩

/-! ## The cancellation state -/

/-- A step of `main` or of a worker touches neither `exitRequested`, nor the context,
nor the listener, and never ends the process with `os.Exit(255)`. -/
theorem step_cancel_frame {b : BackOff} {W : Nat} {s s' : State} {e : Event}
    (h : step b W s e = some s') (he : e ≠ Event.sigint) :
    s'.exitRequested = s.exitRequested ∧ s'.ctx = s.ctx ∧ s'.listener = s.listener ∧
      s'.exit ≠ some Exit.killed := by
  have hl := step_live h
  rw [step_of_live e hl] at h
  cases e with
  | run k =>
    simp only at h
    unfold crawler at h
    split at h
    · split at h
      · cases h
        simp [hl]
      · split at h
        · cases h
          simp [hl]
        · cases h
    · split at h <;> cases h <;> simp [hl]
    · cases h
      simp [hl]
    · cases h
      simp
    · cases h
      simp [hl]
    · cases h
  | ret k env =>
    simp only at h
    unfold crawlReturn at h
    split at h
    · cases h
      simp [hl]
    · cases h
  | main =>
    simp only at h
    unfold main at h
    split at h
    · split at h <;> cases h <;> simp [hl]
    · split at h <;> cases h <;> simp [hl]
    · split at h
      · cases h
        simp
      · cases h
    · cases h
  | sigint => exact absurd rfl he

theorem step_exitRequested_stays {b : BackOff} {W : Nat} {s s' : State} {e : Event}
    (h : step b W s e = some s') (hx : s.exitRequested ≠ 0) : s'.exitRequested ≠ 0 := by
  by_cases he : e = Event.sigint
  · subst he
    rw [step_of_live _ (step_live h)] at h
    simp only [Option.some.injEq] at h
    subst h
    unfold listenCtrlC
    split
    · simp
    · exact hx
  · rw [(step_cancel_frame h he).1]
    exact hx

theorem run_exitRequested_stays {b : BackOff} {W : Nat} (tr : List Event) {s s' : State}
    (h : run b W s tr = some s') (hx : s.exitRequested ≠ 0) : s'.exitRequested ≠ 0 := by
  induction tr generalizing s with
  | nil =>
    simp only [run, Option.some.injEq] at h
    subst h
    exact hx
  | cons e tr ih =>
    simp only [run] at h
    cases hs : step b W s e with
    | none => simp [hs] at h
    | some s1 =>
      simp only [hs, Option.some_bind] at h
      exact ih h (step_exitRequested_stays hs hx)

/-- The cancellation state after an execution is determined by the number of interrupts
received, which is at most two. -/
theorem run_phases {b : BackOff} {W : Nat} {ch : Chan} (tr : List Event) {s : State}
    (hrun : run b W (init ch) tr = some s) :
    (tr.count Event.sigint = 0 ∧ s.exitRequested = 0 ∧ s.ctx.done = false ∧
        s.listener = ListenPc.first ∧ s.exit ≠ some Exit.killed) ∨
      (tr.count Event.sigint = 1 ∧ s.exitRequested = 1 ∧ s.ctx.done = true ∧
        s.listener = ListenPc.second ∧ s.exit ≠ some Exit.killed ∧
        (tr.getLast? = some Event.sigint → s.exit = none)) ∨
      (tr.count Event.sigint = 2 ∧ s.exitRequested = 1 ∧ s.ctx.done = true ∧
        s.exit = some Exit.killed ∧ tr.getLast? = some Event.sigint) := by
  induction tr using List.reverseRecOn generalizing s with
  | nil =>
    simp only [run, Option.some.injEq] at hrun
    subst hrun
    left
    simp [init]
  | append_singleton tr e ih =>
    rw [run_append] at hrun
    cases h1 : run b W (init ch) tr with
    | none => simp [h1] at hrun
    | some s1 =>
      simp only [h1, Option.some_bind, run] at hrun
      cases hs : step b W s1 e with
      | none => simp [hs] at hrun
      | some s2 =>
        simp only [hs, Option.some_bind, Option.some.injEq] at hrun
        subst hrun
        have hl := step_live hs
        by_cases he : e = Event.sigint
        · subst he
          rw [step_of_live _ hl] at hs
          simp only [Option.some.injEq] at hs
          subst hs
          rcases ih h1 with ⟨c, x, d, l, _⟩ | ⟨c, x, d, l, _, _⟩ | ⟨_, _, _, k, _⟩
          · right; left
            simp [listenCtrlC, l, c, hl]
          · right; right
            simp [listenCtrlC, l, c, x, d]
          · rw [k] at hl
            cases hl
        · obtain ⟨f1, f2, f3, f4⟩ := step_cancel_frame hs he
          have hc : (tr ++ [e]).count Event.sigint = tr.count Event.sigint := by
            simp [List.count_append, List.count_singleton, he]
          have hlast : (tr ++ [e]).getLast? ≠ some Event.sigint := by
            simp [he]
          rcases ih h1 with ⟨c, x, d, l, _⟩ | ⟨c, x, d, l, _, _⟩ | ⟨_, _, _, k, _⟩
          · left
            exact ⟨by rw [hc, c], by rw [f1, x], by rw [f2, d], by rw [f3, l], f4⟩
          · right; left
            exact ⟨by rw [hc, c], by rw [f1, x], by rw [f2, d], by rw [f3, l], f4,
              fun hh => absurd hh hlast⟩
          · rw [k] at hl
            cases hl

/-- C7: before any interrupt `exitRequested` is 0 and the listener waits for the first
interrupt. After any execution the cancellation state is one of three, according to the
number of interrupts received: none (flag 0, context not cancelled), one (flag 1, context
cancelled, the process not killed, and still alive right after the interrupt), or two (the
process exited through `os.Exit(255)`, with the second interrupt as last event). Once
`exitRequested` is nonzero it stays nonzero in every continuation. -/
theorem listenCtrlC_only_advances (b : BackOff) (W : Nat) (ch : Chan) (tr : List Event)
    (s : State) (hrun : run b W (init ch) tr = some s) :
    (init ch).exitRequested = 0 ∧ (init ch).listener = ListenPc.first ∧
      ((tr.count Event.sigint = 0 ∧ s.exitRequested = 0 ∧ s.ctx.done = false ∧
          s.listener = ListenPc.first ∧ s.exit ≠ some Exit.killed) ∨
        (tr.count Event.sigint = 1 ∧ s.exitRequested = 1 ∧ s.ctx.done = true ∧
          s.listener = ListenPc.second ∧ s.exit ≠ some Exit.killed ∧
          (tr.getLast? = some Event.sigint → s.exit = none)) ∨
        (tr.count Event.sigint = 2 ∧ s.exitRequested = 1 ∧ s.ctx.done = true ∧
          s.exit = some Exit.killed ∧ tr.getLast? = some Event.sigint)) ∧
      Exit.killed.code = 255 ∧
      ∀ tr2 s2, run b W s tr2 = some s2 → s.exitRequested ≠ 0 → s2.exitRequested ≠ 0 :=
  ⟨rfl, rfl, run_phases tr hrun, rfl, fun tr2 _ h2 hx => run_exitRequested_stays tr2 h2 hx⟩

/-- Witness for C7: two interrupts around a step of `main`. -/
theorem listenCtrlC_only_advances_witness :
    ∃ s, run NewExponentialBackOff 1 (init oneJob)
        [Event.main, Event.sigint, Event.main, Event.sigint] = some s ∧
      s.exit = some Exit.killed ∧
      ((init oneJob).exitRequested = 0 ∧ (init oneJob).listener = ListenPc.first ∧
      (([Event.main, Event.sigint, Event.main, Event.sigint].count Event.sigint = 0 ∧
          s.exitRequested = 0 ∧ s.ctx.done = false ∧
          s.listener = ListenPc.first ∧ s.exit ≠ some Exit.killed) ∨
        ([Event.main, Event.sigint, Event.main, Event.sigint].count Event.sigint = 1 ∧
          s.exitRequested = 1 ∧ s.ctx.done = true ∧
          s.listener = ListenPc.second ∧ s.exit ≠ some Exit.killed ∧
          ([Event.main, Event.sigint, Event.main, Event.sigint].getLast? = some Event.sigint →
            s.exit = none)) ∨
        ([Event.main, Event.sigint, Event.main, Event.sigint].count Event.sigint = 2 ∧
          s.exitRequested = 1 ∧ s.ctx.done = true ∧
          s.exit = some Exit.killed ∧
          [Event.main, Event.sigint, Event.main, Event.sigint].getLast? = some Event.sigint)) ∧
      Exit.killed.code = 255 ∧
      ∀ tr2 s2, run NewExponentialBackOff 1 s tr2 = some s2 →
        s.exitRequested ≠ 0 → s2.exitRequested ≠ 0) :=
  ⟨_, rfl, rfl, listenCtrlC_only_advances NewExponentialBackOff 1 oneJob _ _ rfl⟩

/-! ## Leaving the loop, and calls in flight -/

/-- The return of a `Crawl` call does not depend on the cancellation state. -/
theorem crawlReturn_after_interrupt {b : BackOff} {s : State} {i : Nat} {job : File} {n : Nat}
    (hw : s.workers[i]? = some (WState.inCrawl job n)) (env : CrawlEnv) :
    ∃ t t1, crawlReturn b s i env = some t ∧ crawlReturn b (listenCtrlC s) i env = some t1 ∧
      t1.workers = t.workers ∧ t1.counters = t.counters ∧ t1.calls = t.calls ∧
      t1.jobs = t.jobs ∧ t1.wg = t.wg := by
  have hw1 : (listenCtrlC s).workers[i]? = some (WState.inCrawl job n) := by
    unfold listenCtrlC
    split <;> exact hw
  unfold crawlReturn
  simp only [hw, hw1]
  refine ⟨_, _, rfl, rfl, ?_⟩
  unfold listenCtrlC
  split <;> simp [File.Crawl]

/-- C5: a worker that finds `exitRequested` nonzero at its check leaves the loop and
signals `crawlerGroup.Done` without touching the queue or starting a `Crawl`, and in no
continuation does it take another step (so it neither dequeues nor calls `Crawl` again).
A worker whose `Crawl` call is running when the first interrupt arrives stays in that
call: it has no other step to take, and the call returns with the same effect on the
worker, the counters and the queue as without the interrupt. -/
theorem crawler_stops_after_observing (b : BackOff) (W : Nat) (s : State) (i : Nat)
    (job : File) (n : Nat) (hlive : s.exit = none) :
    (s.workers[i]? = some (WState.check job) → s.exitRequested ≠ 0 →
      ∃ s', step b W s (Event.run i) = some s' ∧
        s'.workers[i]? = some WState.done ∧ s'.wg = s.wg - 1 ∧
        s'.jobs = s.jobs ∧ s'.calls = s.calls ∧
        ∀ tr s'', run b W s' tr = some s'' →
          s''.workers[i]? = some WState.done ∧
          ∀ e ∈ tr, e ≠ Event.run i ∧ ∀ env, e ≠ Event.ret i env) ∧
    (s.workers[i]? = some (WState.inCrawl job n) → s.listener = ListenPc.first →
      ∃ s1, step b W s Event.sigint = some s1 ∧ s1.exitRequested = 1 ∧ s1.exit = none ∧
        s1.workers[i]? = some (WState.inCrawl job n) ∧
        step b W s1 (Event.run i) = none ∧
        ∀ env, ∃ t t1, step b W s (Event.ret i env) = some t ∧
          step b W s1 (Event.ret i env) = some t1 ∧
          t1.workers = t.workers ∧ t1.counters = t.counters ∧ t1.calls = t.calls ∧
          t1.jobs = t.jobs ∧ t1.wg = t.wg) := by
  constructor
  · intro hw hx
    refine ⟨_, crawler_check_set hw hx hlive, getElem?_set_self_of_some _ hw, rfl, rfl, rfl, ?_⟩
    intro tr s'' hrun
    have h := run_done_stays tr hrun (getElem?_set_self_of_some _ hw)
    exact ⟨h.1, h.2.1⟩
  · intro hw hfirst
    have hl1 : (listenCtrlC s).exit = none := by simp [listenCtrlC, hfirst, hlive]
    have hw1 : (listenCtrlC s).workers[i]? = some (WState.inCrawl job n) := by
      simp [listenCtrlC, hfirst, hw]
    refine ⟨listenCtrlC s, by rw [step_of_live _ hlive], by simp [listenCtrlC, hfirst],
      hl1, hw1, ?_, ?_⟩
    · rw [step_of_live _ hl1]
      simp [crawler, hw1]
    · intro env
      rw [step_of_live _ hl1, step_of_live _ hlive]
      exact crawlReturn_after_interrupt hw env

/-- Witness for C5: both situations, at states of the one-job, one-worker program. -/
theorem crawler_stops_after_observing_witness :
    (∃ s', step NewExponentialBackOff 1 heldAfterInterrupt (Event.run 0) = some s' ∧
        s'.workers[0]? = some WState.done ∧ s'.wg = heldAfterInterrupt.wg - 1 ∧
        s'.jobs = heldAfterInterrupt.jobs ∧ s'.calls = heldAfterInterrupt.calls ∧
        ∀ tr s'', run NewExponentialBackOff 1 s' tr = some s'' →
          s''.workers[0]? = some WState.done ∧
          ∀ e ∈ tr, e ≠ Event.run 0 ∧ ∀ env, e ≠ Event.ret 0 env) ∧
    run NewExponentialBackOff 1 (init oneJob)
        [Event.main, Event.main, Event.run 0, Event.run 0, Event.run 0] = some crawlingState ∧
    (∃ s1, step NewExponentialBackOff 1 crawlingState Event.sigint = some s1 ∧
        s1.exitRequested = 1 ∧ s1.exit = none ∧
        s1.workers[0]? = some (WState.inCrawl sampleJob 0) ∧
        step NewExponentialBackOff 1 s1 (Event.run 0) = none ∧
        ∀ env, ∃ t t1, step NewExponentialBackOff 1 crawlingState (Event.ret 0 env) = some t ∧
          step NewExponentialBackOff 1 s1 (Event.ret 0 env) = some t1 ∧
          t1.workers = t.workers ∧ t1.counters = t.counters ∧ t1.calls = t.calls ∧
          t1.jobs = t.jobs ∧ t1.wg = t.wg) :=
  ⟨(crawler_stops_after_observing NewExponentialBackOff 1 heldAfterInterrupt 0 sampleJob 0
      rfl).1 rfl (by decide),
    rfl,
    (crawler_stops_after_observing NewExponentialBackOff 1 crawlingState 0 sampleJob 0
      rfl).2 rfl rfl⟩

/-! ## A failed retry loop -/

/-- C6: when `backoff.Retry` has returned a non-nil error to a worker, the worker's next
step is `logrus.Fatal` with that error: the process ends with a non-zero exit code, the
queue, the workers and the list of `Crawl` calls are as before, and no goroutine takes
another step, so no later job is attempted. -/
theorem crawler_fatal_on_retry_error (b : BackOff) (W : Nat) (s : State) (i : Nat)
    (err : Error) (hw : s.workers[i]? = some (WState.afterRetry (some err)))
    (hlive : s.exit = none) :
    ∃ s', step b W s (Event.run i) = some s' ∧
      s'.exit = some (Exit.fatal err) ∧ (Exit.fatal err).code ≠ 0 ∧
      s'.jobs = s.jobs ∧ s'.workers = s.workers ∧ s'.calls = s.calls ∧
      ∀ e, step b W s' e = none := by
  refine ⟨{ s with exit := some (Exit.fatal err) }, ?_, rfl, by simp [Exit.code, logrusFatalCode], rfl, rfl,
    rfl, fun e => step_exited e rfl⟩
  rw [step_of_live _ hlive]
  simp [crawler, hw]

/-- Witness for C6: the state is reached when the policy gives up on a 404 response. -/
theorem crawler_fatal_on_retry_error_witness :
    run giveUpAtOnce 1 (init { buf := [sampleJob, sampleJob2], cap := 2, closed := false })
        [Event.main, Event.main, Event.run 0, Event.run 0, Event.run 0,
          Event.ret 0 envNotFound] = some retryFailedState ∧
    ∃ s', step giveUpAtOnce 1 retryFailedState (Event.run 0) = some s' ∧
      s'.exit = some (Exit.fatal (Error.httpStatus 404)) ∧
      (Exit.fatal (Error.httpStatus 404)).code ≠ 0 ∧
      s'.jobs = retryFailedState.jobs ∧ s'.workers = retryFailedState.workers ∧
      s'.calls = retryFailedState.calls ∧
      ∀ e, step giveUpAtOnce 1 s' e = none :=
  ⟨rfl, crawler_fatal_on_retry_error giveUpAtOnce 1 retryFailedState 0
    (Error.httpStatus 404) rfl rfl⟩

/-! ## The retry loop -/

/-- The call of `Crawl` by a worker inside the retry loop. -/
theorem crawler_call {b : BackOff} {W : Nat} {s : State} {i : Nat} {job : File} {n : Nat}
    (hw : s.workers[i]? = some (WState.retry job n)) (hlive : s.exit = none) :
    step b W s (Event.run i)
      = some { s with workers := s.workers.set i (WState.inCrawl job n),
                      calls := s.calls ++ [(i, job)] } := by
  rw [step_of_live _ hlive]
  simp [crawler, hw]

/-- The return of a `Crawl` call. -/
theorem crawlReturn_eq {b : BackOff} {W : Nat} {s : State} {i : Nat} {job : File} {n : Nat}
    (hw : s.workers[i]? = some (WState.inCrawl job n)) (hlive : s.exit = none)
    (env : CrawlEnv) :
    step b W s (Event.ret i env)
      = some { s with
          counters := (job.Crawl s.ctx env s.counters).2,
          workers := s.workers.set i
            (match retryNext b n (job.Crawl s.ctx env s.counters).1 with
             | RetryNext.ret err => WState.afterRetry err
             | RetryNext.again => WState.retry job (n + 1)) } := by
  rw [step_of_live _ hlive]
  simp [crawlReturn, hw]

/-- The step of a worker to whom the retry loop has returned nil. -/
theorem crawler_next_job {b : BackOff} {W : Nat} {s : State} {i : Nat}
    (hw : s.workers[i]? = some (WState.afterRetry none)) (hlive : s.exit = none) :
    step b W s (Event.run i) = some { s with workers := s.workers.set i WState.recv } := by
  rw [step_of_live _ hlive]
  simp [crawler, hw]

theorem run_cons_of_step {b : BackOff} {W : Nat} {s s' : State} {e : Event}
    (h : step b W s e = some s') (tr : List Event) :
    run b W s (e :: tr) = run b W s' tr := by
  simp [run, h]

/-- The call of `Crawl`, by its effect. -/
theorem crawler_call_effect {b : BackOff} {W : Nat} {s : State} {i : Nat} {job : File}
    {n : Nat} (hw : s.workers[i]? = some (WState.retry job n)) (hlive : s.exit = none) :
    ∃ t, step b W s (Event.run i) = some t ∧
      t.workers[i]? = some (WState.inCrawl job n) ∧ t.calls = s.calls ++ [(i, job)] ∧
      t.exit = none ∧ t.jobs = s.jobs ∧ t.wg = s.wg :=
  ⟨_, crawler_call hw hlive, getElem?_set_self_of_some _ hw, rfl, hlive, rfl, rfl⟩

/-- The return of a failed `Crawl` call on which the policy does not give up. -/
theorem crawlReturn_again {b : BackOff} {W : Nat} {s : State} {i : Nat} {job : File}
    {n : Nat} (env : CrawlEnv) (hw : s.workers[i]? = some (WState.inCrawl job n))
    (hlive : s.exit = none) (hfail : (job.Crawl s.ctx env s.counters).1 ≠ none)
    (hb : b.stops n = false) :
    ∃ t, step b W s (Event.ret i env) = some t ∧
      t.workers[i]? = some (WState.retry job (n + 1)) ∧ t.calls = s.calls ∧
      t.exit = none ∧ t.jobs = s.jobs ∧ t.wg = s.wg := by
  obtain ⟨e, he⟩ := Option.ne_none_iff_exists'.mp hfail
  refine ⟨_, crawlReturn_eq hw hlive env, ?_, rfl, hlive, rfl, rfl⟩
  simp only [he, retryNext, hb]
  exact getElem?_set_self_of_some _ hw

/-- The return of a `Crawl` call with nil. -/
theorem crawlReturn_nil {b : BackOff} {W : Nat} {s : State} {i : Nat} {job : File}
    {n : Nat} (env : CrawlEnv) (hw : s.workers[i]? = some (WState.inCrawl job n))
    (hlive : s.exit = none) (hok : (job.Crawl s.ctx env s.counters).1 = none) :
    ∃ t, step b W s (Event.ret i env) = some t ∧
      t.workers[i]? = some (WState.afterRetry none) ∧ t.calls = s.calls ∧
      t.exit = none ∧ t.jobs = s.jobs ∧ t.wg = s.wg ∧
      t.counters = (job.Crawl s.ctx env s.counters).2 := by
  refine ⟨_, crawlReturn_eq hw hlive env, ?_, rfl, hlive, rfl, rfl, rfl⟩
  simp only [hok, retryNext]
  exact getElem?_set_self_of_some _ hw

/-- The retry loop under the default policy, started after `n` failures, goes through
all the failing calls and returns nil after the successful one. -/
theorem retry_loop_default (W : Nat) (i : Nat) (job : File) (ok : CrawlEnv)
    (hok : ∀ c g, (job.Crawl c ok g).1 = none) (fails : List CrawlEnv) (s : State) (n : Nat)
    (hw : s.workers[i]? = some (WState.retry job n)) (hlive : s.exit = none)
    (hfail : ∀ env ∈ fails, ∀ c g, (job.Crawl c env g).1 ≠ none) :
    ∃ s1, run NewExponentialBackOff W s (attempts i (fails ++ [ok])) = some s1 ∧
      s1.workers[i]? = some (WState.afterRetry none) ∧
      s1.calls = s.calls ++ List.replicate (fails.length + 1) (i, job) ∧
      s1.exit = none ∧ s1.jobs = s.jobs ∧ s1.wg = s.wg := by
  induction fails generalizing s n with
  | nil =>
    obtain ⟨t, a1, a2, a3, a4, a5, a6⟩ :=
      crawler_call_effect (b := NewExponentialBackOff) (W := W) hw hlive
    obtain ⟨u, b1, b2, b3, b4, b5, b6, _⟩ :=
      crawlReturn_nil (b := NewExponentialBackOff) (W := W) ok a2 a4 (hok _ _)
    refine ⟨u, ?_, b2, ?_, b4, by rw [b5, a5], by rw [b6, a6]⟩
    · simp only [List.nil_append, attempts]
      rw [run_cons_of_step a1, run_cons_of_step b1]
      rfl
    · rw [b3, a3]
      rfl
  | cons env fails ih =>
    obtain ⟨t, a1, a2, a3, a4, a5, a6⟩ :=
      crawler_call_effect (b := NewExponentialBackOff) (W := W) hw hlive
    obtain ⟨u, b1, b2, b3, b4, b5, b6⟩ :=
      crawlReturn_again (b := NewExponentialBackOff) (W := W) env a2 a4
        (hfail env (by simp) _ _) rfl
    obtain ⟨s1, r1, r2, r3, r4, r5, r6⟩ := ih u (n + 1) b2 b4
      (fun env' h' => hfail env' (List.mem_cons_of_mem _ h'))
    refine ⟨s1, ?_, r2, ?_, r4, by rw [r5, b5, a5], by rw [r6, b6, a6]⟩
    · simp only [List.cons_append, attempts]
      rw [run_cons_of_step a1, run_cons_of_step b1]
      exact r1
    · rw [r3, b3, a3]
      simp [List.replicate_succ]

/-- A step of another goroutine leaves a worker where it is. -/
theorem step_other_frame {b : BackOff} {W : Nat} {s t : State} {e : Event} {i : Nat}
    {w : WState} (h : step b W s e = some t) (he : e.byWorker i = false)
    (hw : s.workers[i]? = some w) :
    t.workers[i]? = some w ∧
      t.calls.filter (fun c => decide (c.1 = i)) = s.calls.filter (fun c => decide (c.1 = i)) := by
  have hl := step_live h
  rw [step_of_live e hl] at h
  have hlen := lt_length_of_getElem? hw
  cases e with
  | run k =>
    simp only [Event.byWorker, decide_eq_false_iff_not] at he
    obtain ⟨h1, l, h2, h3⟩ := crawler_frame h he
    refine ⟨by rw [h1, hw], ?_⟩
    rw [h2, List.filter_append]
    have : l.filter (fun c => decide (c.1 = i)) = [] := by
      rw [List.filter_eq_nil_iff]
      intro c hc
      simp [h3 c hc, he]
    simp [this]
  | ret k env =>
    simp only [Event.byWorker, decide_eq_false_iff_not] at he
    obtain ⟨h1, h2⟩ := crawlReturn_frame h he
    exact ⟨by rw [h1, hw], by rw [h2]⟩
  | main =>
    obtain ⟨h1, h2⟩ := main_frame h hlen
    exact ⟨by rw [h1, hw], by rw [h2]⟩
  | sigint =>
    simp only [Option.some.injEq] at h
    subst h
    unfold listenCtrlC
    split <;> exact ⟨hw, rfl⟩

theorem run_other_frame {b : BackOff} {W : Nat} {i : Nat} {w : WState} (tr : List Event)
    {s t : State} (h : run b W s tr = some t) (he : tr.filter (Event.byWorker i) = [])
    (hw : s.workers[i]? = some w) :
    t.workers[i]? = some w ∧
      t.calls.filter (fun c => decide (c.1 = i)) = s.calls.filter (fun c => decide (c.1 = i)) := by
  induction tr generalizing s with
  | nil =>
    simp only [run, Option.some.injEq] at h
    subst h
    exact ⟨hw, rfl⟩
  | cons e tr ih =>
    simp only [run] at h
    cases hs : step b W s e with
    | none => simp [hs] at h
    | some s1 =>
      simp only [hs, Option.some_bind] at h
      have he1 : e.byWorker i = false := by
        by_contra hc
        simp [List.filter_cons, hc] at he
      have he2 : tr.filter (Event.byWorker i) = [] := by
        simpa [List.filter_cons, he1] using he
      obtain ⟨a1, a2⟩ := step_other_frame hs he1 hw
      obtain ⟨b1, b2⟩ := ih h he2 a1
      exact ⟨b1, by rw [b2, a2]⟩

theorem attempts_snoc_eq (i : Nat) (fails : List CrawlEnv) (ok : CrawlEnv) :
    attempts i (fails ++ [ok])
      = Event.run i :: (attempts i (fails ++ [ok])).tail := by
  cases fails <;> simp [attempts]

/-- The retry loop under the default policy, interleaved with any steps of the other
goroutines: worker `i` ends with nil returned and one call per result. -/
theorem retry_interleaved (W : Nat) (i : Nat) (job : File) (ok : CrawlEnv)
    (hok : ∀ c g, (job.Crawl c ok g).1 = none) (tr : List Event) :
    ∀ (s s1 : State) (n : Nat) (fails : List CrawlEnv),
      run NewExponentialBackOff W s tr = some s1 →
      (∀ env ∈ fails, ∀ c g, (job.Crawl c env g).1 ≠ none) →
      (s.workers[i]? = some (WState.retry job n) →
        tr.filter (Event.byWorker i) = attempts i (fails ++ [ok]) →
        s1.workers[i]? = some (WState.afterRetry none) ∧
          s1.calls.filter (fun c => decide (c.1 = i))
            = s.calls.filter (fun c => decide (c.1 = i))
              ++ List.replicate (fails.length + 1) (i, job)) ∧
      (s.workers[i]? = some (WState.inCrawl job n) →
        tr.filter (Event.byWorker i) = (attempts i (fails ++ [ok])).tail →
        s1.workers[i]? = some (WState.afterRetry none) ∧
          s1.calls.filter (fun c => decide (c.1 = i))
            = s.calls.filter (fun c => decide (c.1 = i))
              ++ List.replicate fails.length (i, job)) := by
  induction tr with
  | nil =>
    intro s s1 n fails _ _
    constructor
    · intro _ hf
      rw [attempts_snoc_eq] at hf
      simp at hf
    · intro _ hf
      cases fails <;> simp [attempts] at hf
  | cons e tr ih =>
    intro s s1 n fails hrun hfail
    simp only [run] at hrun
    cases hs : step NewExponentialBackOff W s e with
    | none => simp [hs] at hrun
    | some t =>
      simp only [hs, Option.some_bind] at hrun
      have hl := step_live hs
      by_cases he : e.byWorker i = true
      · simp only [List.filter_cons, he, if_true]
        constructor
        · intro hw hf
          rw [attempts_snoc_eq] at hf
          obtain ⟨he1, hf1⟩ := List.cons.inj hf
          subst he1
          obtain ⟨t', a1, a2, a3, _⟩ :=
            crawler_call_effect (b := NewExponentialBackOff) (W := W) hw hl
          rw [hs] at a1
          cases a1
          obtain ⟨r1, r2⟩ := (ih t s1 n fails hrun hfail).2 a2 hf1
          refine ⟨r1, ?_⟩
          rw [r2, a3, List.filter_append]
          simp [List.replicate_succ]
        · intro hw hf
          cases fails with
          | nil =>
            simp only [List.nil_append, attempts, List.tail_cons] at hf
            obtain ⟨he1, hf1⟩ := List.cons.inj hf
            subst he1
            obtain ⟨t', a1, a2, a3, _⟩ :=
              crawlReturn_nil (b := NewExponentialBackOff) (W := W) ok hw hl (hok _ _)
            rw [hs] at a1
            cases a1
            obtain ⟨r1, r2⟩ := run_other_frame tr hrun hf1 a2
            exact ⟨r1, by rw [r2, a3]; simp⟩
          | cons env fails =>
            simp only [List.cons_append, attempts, List.tail_cons] at hf
            obtain ⟨he1, hf1⟩ := List.cons.inj hf
            subst he1
            obtain ⟨t', a1, a2, a3, _⟩ :=
              crawlReturn_again (b := NewExponentialBackOff) (W := W) env hw hl
                (hfail env (by simp) _ _) rfl
            rw [hs] at a1
            cases a1
            obtain ⟨r1, r2⟩ := (ih t s1 (n + 1) fails hrun
              (fun env' h' => hfail env' (List.mem_cons_of_mem _ h'))).1 a2 hf1
            exact ⟨r1, by rw [r2, a3]; simp⟩
      · have he' : e.byWorker i = false := by simpa using he
        simp only [List.filter_cons, he', Bool.false_eq_true, if_false]
        constructor
        · intro hw hf
          obtain ⟨a1, a2⟩ := step_other_frame hs he' hw
          obtain ⟨r1, r2⟩ := (ih t s1 n fails hrun hfail).1 a1 hf
          exact ⟨r1, by rw [r2, a2]⟩
        · intro hw hf
          obtain ⟨a1, a2⟩ := step_other_frame hs he' hw
          obtain ⟨r1, r2⟩ := (ih t s1 n fails hrun hfail).2 a1 hf
          exact ⟨r1, by rw [r2, a2]⟩

/-- C3: a worker enters the retry loop for a job whose `Crawl` fails on its first `K`
calls and returns nil on the next one. Under the default policy the loop runs through:
the worker's `K + 1` calls and returns are executable one after the other, the worker
calls `Crawl` exactly `K + 1` times, `backoff.Retry` returns nil, and the worker's next
step takes it back to the receive of the next job, the process alive, with no further
call. The same holds when steps of the other goroutines are interleaved: in every
execution in which the worker's own steps are these calls and returns, the worker ends
with nil returned and exactly `K + 1` calls of its own added. -/
theorem retry_succeeds_after_K_failures (W : Nat) (s : State) (i : Nat) (job : File)
    (K : Nat) (fails : List CrawlEnv) (ok : CrawlEnv)
    (hw : s.workers[i]? = some (WState.retry job 0)) (hlive : s.exit = none)
    (hK : fails.length = K)
    (hfail : ∀ env ∈ fails, ∀ c g, (job.Crawl c env g).1 ≠ none)
    (hok : ∀ c g, (job.Crawl c ok g).1 = none) :
    (∃ s1 s2, run NewExponentialBackOff W s (attempts i (fails ++ [ok])) = some s1 ∧
      s1.workers[i]? = some (WState.afterRetry none) ∧
      s1.calls = s.calls ++ List.replicate (K + 1) (i, job) ∧ s1.exit = none ∧
      step NewExponentialBackOff W s1 (Event.run i) = some s2 ∧
      s2.workers[i]? = some WState.recv ∧ s2.exit = none ∧ s2.calls = s1.calls) ∧
    (∀ tr t, run NewExponentialBackOff W s tr = some t →
      tr.filter (Event.byWorker i) = attempts i (fails ++ [ok]) →
      t.workers[i]? = some (WState.afterRetry none) ∧
        t.calls.filter (fun c => decide (c.1 = i))
          = s.calls.filter (fun c => decide (c.1 = i)) ++ List.replicate (K + 1) (i, job)) := by
  obtain ⟨s1, r1, r2, r3, r4, _, _⟩ :=
    retry_loop_default W i job ok hok fails s 0 hw hlive hfail
  subst hK
  refine ⟨⟨s1, _, r1, r2, r3, r4, crawler_next_job r2 r4, getElem?_set_self_of_some _ r2, r4,
    rfl⟩, ?_⟩
  intro tr t hrun hf
  exact (retry_interleaved W i job ok hok tr s t 0 fails hrun hfail).1 hw hf

/-- Witness for C3: two 404 responses, then a successful download. -/
theorem retry_succeeds_after_K_failures_witness :
    run NewExponentialBackOff 1 (init oneJob)
        [Event.main, Event.main, Event.run 0, Event.run 0] = some retryingState ∧
    (∃ s1 s2, run NewExponentialBackOff 1 retryingState
        (attempts 0 ([envNotFound, envNotFound] ++ [envOk])) = some s1 ∧
      s1.workers[0]? = some (WState.afterRetry none) ∧
      s1.calls = retryingState.calls ++ List.replicate (2 + 1) (0, sampleJob) ∧
      s1.exit = none ∧
      step NewExponentialBackOff 1 s1 (Event.run 0) = some s2 ∧
      s2.workers[0]? = some WState.recv ∧ s2.exit = none ∧ s2.calls = s1.calls) ∧
    (∀ tr t, run NewExponentialBackOff 1 retryingState tr = some t →
      tr.filter (Event.byWorker 0) = attempts 0 ([envNotFound, envNotFound] ++ [envOk]) →
      t.workers[0]? = some (WState.afterRetry none) ∧
        t.calls.filter (fun c => decide (c.1 = 0))
          = retryingState.calls.filter (fun c => decide (c.1 = 0))
            ++ List.replicate (2 + 1) (0, sampleJob)) :=
  ⟨rfl, retry_succeeds_after_K_failures 1 retryingState 0 sampleJob 2
    [envNotFound, envNotFound] envOk rfl rfl rfl
    (by
      intro env henv c g
      simp only [List.mem_cons, List.mem_singleton, List.not_mem_nil, or_false, or_self] at henv
      subst henv
      simp [File.Crawl, envNotFound, envOk])
    (by
      intro c g
      simp [File.Crawl, envOk])⟩

/-! ## Errors that `File.Crawl` does not return -/

/-- The error returned by `File.Crawl` is the HTTP status error or the error of `Close`. -/
theorem Crawl_error_cases (l : File) (c : Context) (env : CrawlEnv) (g : Counters) (e : Error)
    (h : (l.Crawl c env g).1 = some e) :
    (env.doErr = none ∧ env.statusCode ≠ 200 ∧ e = Error.httpStatus env.statusCode) ∨
      (env.written ∧ env.closeErr = some e) := by
  obtain ⟨d, sc, m, st, o, sz, w, cl⟩ := env
  unfold File.Crawl at h
  unfold CrawlEnv.written
  cases d <;> cases m <;> cases st <;> cases o <;> cases w <;>
    by_cases h2 : sc = 200 <;> simp_all

/-- A failure that `File.Crawl` does not report leaves the counters alone and yields nil. -/
theorem Crawl_swallowed (l : File) (c : Context) (env : CrawlEnv) (g : Counters)
    (h : env.swallowed) : l.Crawl c env g = (none, g) := by
  obtain ⟨d, sc, m, st, o, sz, w, cl⟩ := env
  unfold CrawlEnv.swallowed at h
  unfold File.Crawl
  cases d <;> cases m <;> cases st <;> cases o <;> cases w <;>
    by_cases h2 : sc = 200 <;> simp_all

/-- C9: the error `File.Crawl` returns is either the HTTP status error of a response
whose status is not 200, or the error of `file.Close()` after a successful write. When
the request fails, or `os.MkdirAll`, `os.OpenFile` or `res.WriteTo` fails, the call
returns nil with the counters unchanged; `backoff.Retry` then returns nil to the worker,
whose next step goes back to the receive: the job is not called again, nor put back in
the queue, and the process goes on. -/
theorem Crawl_reports_only_status_and_close (b : BackOff) (W : Nat) (s : State) (i : Nat)
    (job : File) (n : Nat) (env : CrawlEnv)
    (hw : s.workers[i]? = some (WState.inCrawl job n)) (hlive : s.exit = none) :
    (∀ e, (job.Crawl s.ctx env s.counters).1 = some e →
        (env.doErr = none ∧ env.statusCode ≠ 200 ∧ e = Error.httpStatus env.statusCode) ∨
          (env.written ∧ env.closeErr = some e)) ∧
      (env.swallowed →
        job.Crawl s.ctx env s.counters = (none, s.counters) ∧
        ∃ t u, step b W s (Event.ret i env) = some t ∧
          t.workers[i]? = some (WState.afterRetry none) ∧
          step b W t (Event.run i) = some u ∧
          u.workers[i]? = some WState.recv ∧ u.calls = s.calls ∧ u.jobs = s.jobs ∧
          u.counters = s.counters ∧ u.exit = none) := by
  refine ⟨fun e he => Crawl_error_cases job s.ctx env s.counters e he, fun hsw => ?_⟩
  have hc := Crawl_swallowed job s.ctx env s.counters hsw
  obtain ⟨t, t1, t2, t3, t4, t5, _, t7⟩ :=
    crawlReturn_nil (b := b) (W := W) env hw hlive (by rw [hc])
  refine ⟨hc, t, _, t1, t2, crawler_next_job t2 t4, getElem?_set_self_of_some _ t2, t3, t5,
    ?_, t4⟩
  show t.counters = s.counters
  rw [t7, hc]

/-- Witness for C9: the request of the call running in `crawlingState` fails. -/
theorem Crawl_reports_only_status_and_close_witness :
    (∀ e, (sampleJob.Crawl crawlingState.ctx envDoFails crawlingState.counters).1 = some e →
        (envDoFails.doErr = none ∧ envDoFails.statusCode ≠ 200 ∧
            e = Error.httpStatus envDoFails.statusCode) ∨
          (envDoFails.written ∧ envDoFails.closeErr = some e)) ∧
      (sampleJob.Crawl crawlingState.ctx envDoFails crawlingState.counters
          = (none, crawlingState.counters) ∧
        ∃ t u, step giveUpAtOnce 1 crawlingState (Event.ret 0 envDoFails) = some t ∧
          t.workers[0]? = some (WState.afterRetry none) ∧
          step giveUpAtOnce 1 t (Event.run 0) = some u ∧
          u.workers[0]? = some WState.recv ∧ u.calls = crawlingState.calls ∧
          u.jobs = crawlingState.jobs ∧ u.counters = crawlingState.counters ∧
          u.exit = none) :=
  ⟨(Crawl_reports_only_status_and_close giveUpAtOnce 1 crawlingState 0 sampleJob 0
      envDoFails rfl rfl).1,
    (Crawl_reports_only_status_and_close giveUpAtOnce 1 crawlingState 0 sampleJob 0
      envDoFails rfl rfl).2 (Or.inl (by simp [envDoFails]))⟩

/-! ## The pool without cancellation and without failures -/

theorem sumOver_set (f : WState → Nat) {l : List WState} {i : Nat} {a : WState}
    (h : l[i]? = some a) (w : WState) :
    sumOver f (l.set i w) + f a = sumOver f l + f w := by
  induction l generalizing i with
  | nil => simp at h
  | cons x l ih =>
    cases i with
    | zero =>
      simp only [List.getElem?_cons_zero, Option.some.injEq] at h
      subst h
      simp only [sumOver, List.set_cons_zero, List.map_cons, List.sum_cons]
      omega
    | succ i =>
      simp only [List.getElem?_cons_succ] at h
      have := ih h
      simp only [sumOver, List.set_cons_succ, List.map_cons, List.sum_cons] at this ⊢
      omega

theorem sumOver_append (f : WState → Nat) (l : List WState) (w : WState) :
    sumOver f (l ++ [w]) = sumOver f l + f w := by
  simp [sumOver]

theorem count_cons_single (j x : File) (l : List File) :
    (x :: l).count j = l.count j + [x].count j := by
  simp [List.count_cons]

theorem count_snd_append (j : File) (calls : List (Nat × File)) (i : Nat) (x : File) :
    ((calls ++ [(i, x)]).map Prod.snd).count j = (calls.map Prod.snd).count j + [x].count j := by
  simp [List.count_append]

theorem sumOver_ge (f : WState → Nat) {l : List WState} {i : Nat} {a : WState}
    (h : l[i]? = some a) : f a ≤ sumOver f l := by
  induction l generalizing i with
  | nil => simp at h
  | cons x l ih =>
    cases i with
    | zero =>
      simp only [List.getElem?_cons_zero, Option.some.injEq] at h
      subst h
      simp only [sumOver, List.map_cons, List.sum_cons]
      omega
    | succ i =>
      simp only [List.getElem?_cons_succ] at h
      have := ih h
      simp only [sumOver, List.map_cons, List.sum_cons] at this ⊢
      omega

/-- The invariant and the potential under a step that only moves one worker. -/
theorem Inv.worker_update {W : Nat} {jobs0 : List File} {s s' : State} {i : Nat}
    {w w' : WState} (hI : Inv W jobs0 s) (hl : s.exit = none)
    (hw : s.workers[i]? = some w) (hws : s'.workers = s.workers.set i w')
    (hx : s'.exitRequested = s.exitRequested) (hpc : s'.mainPc = s.mainPc)
    (hcl : s'.jobs.closed = s.jobs.closed) (hex : s'.exit = s.exit)
    (hf : isFailed w' = 0) (hcalls : ∀ c ∈ s'.calls, c ∈ s.calls ∨ c.1 = i)
    (hcnt : ∀ j, (s'.calls.map Prod.snd).count j + heldCount j w' + s'.jobs.buf.count j
      = (s.calls.map Prod.snd).count j + heldCount j w + s.jobs.buf.count j)
    (hwg : s'.wg + (isDone w' : Int) = s.wg + (isDone w : Int))
    (hdr : isDone w' ≤ isDone w ∨ (s.jobs.closed = true ∧ s'.jobs.buf = []))
    (hbuf : s.jobs.buf = [] → s'.jobs.buf = [])
    (hpot : 5 * s'.jobs.buf.length + weight w' < 5 * s.jobs.buf.length + weight w) :
    Inv W jobs0 s' ∧ potential W s' < potential W s := by
  obtain ⟨iflag, ifailed, icnt, iwg, ilen, ile, iclosed, iexit, ifin, idrained, iwho⟩ := hI
  have S1 := sumOver_set isFailed hw w'
  have S2 := sumOver_set isDone hw w'
  have S3 := sumOver_set weight hw w'
  have S4 := fun j => sumOver_set (heldCount j) hw w'
  have G1 := sumOver_ge isFailed hw
  refine ⟨⟨by rw [hx, iflag], by rw [hws]; omega, ?_, ?_, ?_, by rw [hpc]; exact ile,
    by rw [hcl, hpc, iclosed], by rw [hex, hpc, iexit], ?_, ?_, ?_⟩, ?_⟩
  · intro j
    have := icnt j
    have := S4 j
    have := hcnt j
    rw [hws]
    omega
  · rw [hws, hpc]
    omega
  · rw [hws, hpc, List.length_set, ilen]
  · intro hr
    rw [hpc] at hr
    rw [iexit, hr] at hl
    cases hl
  · rw [hws, hcl]
    rcases idrained with h0 | ⟨h1, h2⟩
    · rcases hdr with h3 | ⟨h3, h4⟩
      · left
        omega
      · right
        exact ⟨h3, h4⟩
    · right
      exact ⟨h1, hbuf h2⟩
  · intro c hc
    rw [hws, List.length_set]
    rcases hcalls c hc with h | h
    · exact iwho c h
    · rw [h]
      exact lt_length_of_getElem? hw
  · unfold potential
    rw [hws, hpc]
    omega

theorem crawler_inv {W : Nat} {jobs0 : List File} {s s' : State} {i : Nat}
    (hI : Inv W jobs0 s) (hl : s.exit = none) (h : crawler s i = some s') :
    Inv W jobs0 s' ∧ potential W s' < potential W s := by
  unfold crawler at h
  split at h
  · rename_i heq
    split at h
    · rename_i job rest hbuf
      cases h
      refine hI.worker_update hl heq rfl rfl rfl rfl rfl rfl (fun _ hc => Or.inl hc) ?_ ?_ (Or.inl (le_refl _)) ?_ ?_
      · intro j
        have := count_cons_single j job rest
        simp only [heldCount, hbuf]
        omega
      · simp [isDone]
      · intro h0
        rw [h0] at hbuf
        cases hbuf
      · simp only [hbuf, weight, List.length_cons]
        omega
    · split at h
      · rename_i hbuf hclosed
        cases h
        refine hI.worker_update hl heq rfl rfl rfl rfl rfl rfl (fun _ hc => Or.inl hc) ?_ ?_ (Or.inr ⟨hclosed, hbuf⟩)
          (fun h0 => h0) ?_
        · intro j
          simp [heldCount]
        · simp [isDone]
        · simp [weight]
      · cases h
  · rename_i job heq
    split at h
    · rename_i hx
      exact absurd hI.flag hx
    · cases h
      refine hI.worker_update hl heq rfl rfl rfl rfl rfl rfl (fun _ hc => Or.inl hc) ?_ ?_ (Or.inl (le_refl _))
        (fun h0 => h0) ?_
      · intro j
        simp [heldCount]
      · simp [isDone]
      · simp [weight]
  · rename_i job n heq
    cases h
    refine hI.worker_update hl heq rfl rfl rfl rfl rfl rfl ?_ ?_ ?_ (Or.inl (le_refl _))
      (fun h0 => h0) ?_
    · intro c hc
      rcases List.mem_append.mp hc with h | h
      · exact Or.inl h
      · rw [List.mem_singleton.mp h]
        exact Or.inr rfl
    · intro j
      have := count_snd_append j s.calls i job
      simp only [heldCount]
      omega
    · simp [isDone]
    · simp [weight]
  · rename_i err heq
    have := sumOver_ge isFailed heq
    have := hI.failed
    simp only [isFailed] at *
    omega
  · rename_i heq
    cases h
    refine hI.worker_update hl heq rfl rfl rfl rfl rfl rfl (fun _ hc => Or.inl hc) ?_ ?_ (Or.inl (le_refl _))
      (fun h0 => h0) ?_
    · intro j
      simp [heldCount]
    · simp [isDone]
    · simp [weight]
  · cases h

theorem crawlReturn_inv {b : BackOff} {W : Nat} {jobs0 : List File} {s s' : State} {i : Nat}
    {env : CrawlEnv} (hI : Inv W jobs0 s) (hl : s.exit = none)
    (hq : (Event.ret i env).quiet) (h : crawlReturn b s i env = some s') :
    Inv W jobs0 s' ∧ potential W s' < potential W s := by
  unfold crawlReturn at h
  split at h
  · rename_i job n heq
    cases h
    have hnil : (job.Crawl s.ctx env s.counters).1 = none := hq job s.ctx s.counters
    simp only [hnil, retryNext]
    refine hI.worker_update hl heq rfl rfl rfl rfl rfl rfl (fun _ hc => Or.inl hc) ?_ ?_ (Or.inl (le_refl _))
      (fun h0 => h0) ?_
    · intro j
      simp [heldCount]
    · simp [isDone]
    · simp [weight]
  · cases h

/-- Below `2 ^ 31` the conversion `int(...)` is the identity. -/
theorem intOfUint_small {W : Nat} (h : W < 2 ^ 31) : intOfUint W = (W : Int) := by
  unfold intOfUint wrapInt64
  omega

/-- On a counter at 0 the call `Add` with a value below `2 ^ 31` sets the counter to it. -/
theorem WaitGroup.Add_small {W : Nat} (h : W < 2 ^ 31) :
    WaitGroup.Add 0 (W : Int) = some (W : Int) := by
  have h2 : wrapInt32 (W : Int) = (W : Int) := by
    unfold wrapInt32
    omega
  have h3 : ¬ ((W : Int) < 0) := by omega
  simp [WaitGroup.Add, h2, h3]

theorem main_inv {W : Nat} {jobs0 : List File} {s s' : State} (hW31 : W < 2 ^ 31)
    (hI : Inv W jobs0 s) (h : main W s = some s') :
    Inv W jobs0 s' ∧ potential W s' < potential W s := by
  obtain ⟨iflag, ifailed, icnt, iwg, ilen, ile, iclosed, iexit, ifin, idrained, iwho⟩ := hI
  unfold main at h
  rw [intOfUint_small hW31] at h
  split at h
  · rename_i hpc
    simp only [hpc, mainAdded, nSpawned, pcClosed, pcExit] at iwg ilen ile iclosed iexit
    have hnil : s.workers = [] := List.length_eq_zero.mp ilen
    have hsum : sumOver isDone s.workers = 0 := by simp [hnil, sumOver]
    have hwg0 : s.wg = 0 := by omega
    rw [hwg0, WaitGroup.Add_small hW31] at h
    cases h
    refine ⟨⟨iflag, ifailed, icnt, ?_, ?_, ?_, iclosed, iexit, ?_, idrained, iwho⟩, ?_⟩
    · simp only [mainAdded]
      omega
    · simpa [nSpawned] using ilen
    · simp [nSpawned]
    · intro hr
      cases hr
    · simp only [potential, hpc, mainWeight]
      omega
  · rename_i k hpc
    simp only [hpc, mainAdded, nSpawned, pcClosed, pcExit] at iwg ilen ile iclosed iexit
    split at h
    · rename_i hk
      cases h
      have A1 := sumOver_append isFailed s.workers WState.recv
      have A2 := sumOver_append isDone s.workers WState.recv
      have A3 := sumOver_append weight s.workers WState.recv
      have A4 := fun j => sumOver_append (heldCount j) s.workers WState.recv
      simp only [isFailed, isDone, weight, heldCount] at A1 A2 A3 A4
      refine ⟨⟨iflag, by simp only; omega, ?_, ?_, ?_, ?_, iclosed, iexit, ?_, ?_, ?_⟩, ?_⟩
      · intro j
        have := icnt j
        have := A4 j
        simp only
        omega
      · simp only [mainAdded]
        omega
      · simp only [nSpawned, List.length_append, List.length_singleton]
        omega
      · simp only [nSpawned]
        omega
      · intro hr
        cases hr
      · simp only
        rcases idrained with h0 | h0
        · left
          omega
        · right
          exact h0
      · intro c hc
        have := iwho c hc
        simp only [List.length_append, List.length_singleton]
        omega
      · simp only [potential, hpc, mainWeight]
        omega
    · rename_i hk
      cases h
      have hkW : k = W := by omega
      refine ⟨⟨iflag, ifailed, icnt, ?_, ?_, ?_, rfl, iexit, ?_, ?_, iwho⟩, ?_⟩
      · simp only [mainAdded]
        omega
      · simp only [nSpawned]
        omega
      · simp [nSpawned]
      · intro hr
        cases hr
      · simp only
        rcases idrained with h0 | ⟨h0, _⟩
        · left
          exact h0
        · rw [iclosed] at h0
          cases h0
      · simp only [potential, hpc, mainWeight]
        omega
  · rename_i hpc
    simp only [hpc, mainAdded, nSpawned, pcClosed, pcExit] at iwg ilen ile iclosed iexit
    split at h
    · rename_i hwg
      cases h
      refine ⟨⟨iflag, ifailed, icnt, ?_, ?_, ?_, iclosed, rfl, fun _ => hwg, idrained, iwho⟩, ?_⟩
      · simp only [mainAdded]
        omega
      · simpa [nSpawned] using ilen
      · simp [nSpawned]
      · simp only [potential, hpc, mainWeight]
        omega
    · cases h
  · cases h

/-- Every step other than an interrupt or a failed `Crawl` keeps the invariant and
lowers the potential. -/
theorem step_inv {b : BackOff} {W : Nat} {jobs0 : List File} {s s' : State} {e : Event}
    (hW31 : W < 2 ^ 31) (hI : Inv W jobs0 s) (hq : e.quiet) (h : step b W s e = some s') :
    Inv W jobs0 s' ∧ potential W s' < potential W s := by
  have hl := step_live h
  rw [step_of_live e hl] at h
  cases e with
  | run i => exact crawler_inv hI hl h
  | ret i env => exact crawlReturn_inv hI hl hq h
  | main => exact main_inv hW31 hI h
  | sigint => exact absurd hq (by simp [Event.quiet])

theorem init_inv (W : Nat) (ch : Chan) (hopen : ch.closed = false) :
    Inv W ch.buf (init ch) where
  flag := rfl
  failed := rfl
  cnt := by intro j; simp [init, sumOver]
  wg := by simp [init, sumOver, mainAdded]
  len := rfl
  le := by simp [init, nSpawned]
  closed := by simp [init, pcClosed, hopen]
  exit := rfl
  fin := by intro h; cases h
  drained := Or.inl rfl
  who := by intro c hc; cases hc

theorem run_inv {b : BackOff} {W : Nat} {jobs0 : List File} (tr : List Event) {s s' : State}
    (hW31 : W < 2 ^ 31) (hI : Inv W jobs0 s) (hq : ∀ e ∈ tr, e.quiet) (h : run b W s tr = some s') :
    Inv W jobs0 s' ∧ tr.length + potential W s' ≤ potential W s := by
  induction tr generalizing s with
  | nil =>
    simp only [run, Option.some.injEq] at h
    subst h
    exact ⟨hI, by simp⟩
  | cons e tr ih =>
    simp only [run] at h
    cases hs : step b W s e with
    | none => simp [hs] at h
    | some s1 =>
      simp only [hs, Option.some_bind] at h
      obtain ⟨h1, h2⟩ := step_inv hW31 hI (hq e (by simp)) hs
      obtain ⟨h3, h4⟩ := ih h1 (fun e' he' => hq e' (List.mem_cons_of_mem _ he')) h
      refine ⟨h3, ?_⟩
      simp only [List.length_cons]
      omega

theorem sumOver_isDone_le (l : List WState) : sumOver isDone l ≤ l.length := by
  induction l with
  | nil => simp [sumOver]
  | cons x l ih =>
    simp only [sumOver, List.map_cons, List.sum_cons, List.length_cons] at ih ⊢
    cases x <;> simp only [isDone] <;> omega

theorem exists_not_done {l : List WState} (h : sumOver isDone l < l.length) :
    ∃ (i : Nat) (w : WState), l[i]? = some w ∧ w ≠ WState.done := by
  induction l with
  | nil => simp at h
  | cons x l ih =>
    by_cases hx : x = WState.done
    · subst hx
      simp only [sumOver, List.map_cons, List.sum_cons, List.length_cons, isDone] at h ih
      obtain ⟨i, w, h1, h2⟩ := ih (by omega)
      exact ⟨i + 1, w, by simpa using h1, h2⟩
    · exact ⟨0, x, by simp, hx⟩

theorem all_done_of_sum {l : List WState} (h : sumOver isDone l = l.length) :
    ∀ w ∈ l, w = WState.done := by
  intro w hw
  by_contra hne
  obtain ⟨i, hi, hget⟩ := List.getElem_of_mem hw
  have hsome : l[i]? = some w := by rw [List.getElem?_eq_getElem hi, hget]
  have h1 := sumOver_set isDone hsome WState.done
  have h2 := sumOver_isDone_le (l.set i WState.done)
  have h3 : isDone w = 0 := by
    cases w <;> simp [isDone] at hne ⊢
  simp only [List.length_set, isDone] at h1 h2
  omega

theorem heldCount_all_done (j : File) {l : List WState} (h : ∀ w ∈ l, w = WState.done) :
    sumOver (heldCount j) l = 0 := by
  induction l with
  | nil => rfl
  | cons x l ih =>
    have hx := h x (by simp)
    subst hx
    have := ih (fun w hw => h w (List.mem_cons_of_mem _ hw))
    simp only [sumOver, List.map_cons, List.sum_cons, heldCount] at this ⊢
    omega

/-- A request that fails makes `Crawl` return nil. -/
theorem envDoFails_quiet (i : Nat) : (Event.ret i envDoFails).quiet := by
  intro l c g
  rfl

/-- While the process runs, some goroutine can take a step that is neither an interrupt
nor a failed `Crawl`. -/
theorem inv_progress {b : BackOff} {W : Nat} {jobs0 : List File} {s : State}
    (hI : Inv W jobs0 s) (hl : s.exit = none) :
    ∃ e : Event, e.quiet ∧ (step b W s e).isSome = true := by
  obtain ⟨iflag, ifailed, icnt, iwg, ilen, ile, iclosed, iexit, ifin, idrained, iwho⟩ := hI
  cases hpc : s.mainPc with
  | add =>
    refine ⟨Event.main, trivial, ?_⟩
    rw [step_of_live _ hl]
    simp only [main, hpc]
    split <;> rfl
  | spawn k =>
    refine ⟨Event.main, trivial, ?_⟩
    rw [step_of_live _ hl]
    simp only [main, hpc]
    split <;> rfl
  | returned =>
    rw [iexit, hpc] at hl
    cases hl
  | wait =>
    simp only [hpc, mainAdded, nSpawned, pcClosed] at iwg ilen iclosed
    by_cases hwg : s.wg = 0
    · refine ⟨Event.main, trivial, ?_⟩
      rw [step_of_live _ hl]
      simp [main, hpc, hwg]
    · have hle := sumOver_isDone_le s.workers
      obtain ⟨i, w, hw, hnd⟩ := exists_not_done (l := s.workers) (by omega)
      cases w with
      | recv =>
        refine ⟨Event.run i, trivial, ?_⟩
        rw [step_of_live _ hl]
        simp only [crawler, hw]
        cases hb : s.jobs.buf with
        | nil => simp [iclosed]
        | cons job rest => simp
      | check job =>
        refine ⟨Event.run i, trivial, ?_⟩
        rw [step_of_live _ hl]
        simp only [crawler, hw]
        split <;> rfl
      | retry job n =>
        refine ⟨Event.run i, trivial, ?_⟩
        rw [step_of_live _ hl]
        simp [crawler, hw]
      | inCrawl job n =>
        refine ⟨Event.ret i envDoFails, envDoFails_quiet i, ?_⟩
        rw [step_of_live _ hl]
        simp [crawlReturn, hw]
      | afterRetry err =>
        refine ⟨Event.run i, trivial, ?_⟩
        rw [step_of_live _ hl]
        cases err <;> simp [crawler, hw]
      | done => exact absurd rfl hnd

/-- Once the process has ended, `main` has returned from `Wait`, every worker has left
its loop, the queue is empty and every job has been passed to `Crawl` exactly once. -/
theorem inv_final {W : Nat} {jobs0 : List File} {s : State} (hW : 1 ≤ W)
    (hI : Inv W jobs0 s) (hx : s.exit ≠ none) :
    s.exit = some Exit.returned ∧ s.mainPc = MainPc.returned ∧
      (s.calls.map Prod.snd).Perm jobs0 ∧ (∀ c ∈ s.calls, c.1 < W) ∧
      s.workers.length = W ∧ (∀ w ∈ s.workers, w = WState.done) ∧ s.wg = 0 ∧
      s.jobs.buf = [] := by
  obtain ⟨iflag, ifailed, icnt, iwg, ilen, ile, iclosed, iexit, ifin, idrained, iwho⟩ := hI
  have hpc : s.mainPc = MainPc.returned := by
    cases h : s.mainPc <;> simp [iexit, h, pcExit] at hx ⊢
  have hwg := ifin hpc
  simp only [hpc, mainAdded, nSpawned, pcExit] at iwg ilen iexit
  have hsum : sumOver isDone s.workers = s.workers.length := by omega
  have hall := all_done_of_sum hsum
  have hbuf : s.jobs.buf = [] := by
    rcases idrained with h0 | ⟨_, h0⟩
    · omega
    · exact h0
  refine ⟨iexit, hpc, ?_, fun c hc => ilen ▸ iwho c hc, ilen, hall, hwg, hbuf⟩
  rw [List.perm_iff_count]
  intro j
  have := icnt j
  rw [heldCount_all_done j hall, hbuf] at this
  simpa using this

/-- From every state of such an execution the process can run to its end. -/
theorem inv_completion {b : BackOff} {W : Nat} {jobs0 : List File} (s : State)
    (hW31 : W < 2 ^ 31) (hI : Inv W jobs0 s) :
    ∃ tr s', (∀ e ∈ tr, Event.quiet e) ∧ run b W s tr = some s' ∧ s'.exit ≠ none := by
  generalize hp : potential W s = p
  induction p using Nat.strong_induction_on generalizing s with
  | _ p ih =>
    by_cases hl : s.exit = none
    · obtain ⟨e, hq, hsome⟩ := inv_progress (b := b) hI hl
      obtain ⟨s1, hs1⟩ := Option.isSome_iff_exists.mp hsome
      obtain ⟨hI1, hlt⟩ := step_inv hW31 hI hq hs1
      obtain ⟨tr, s', h1, h2, h3⟩ := ih (potential W s1) (by omega) s1 hI1 rfl
      refine ⟨e :: tr, s', ?_, ?_, h3⟩
      · intro e' he'
        rcases List.mem_cons.mp he' with rfl | hm
        · exact hq
        · exact h1 e' hm
      · rw [run_cons_of_step hs1]
        exact h2
    · exact ⟨[], s, by simp, rfl, hl⟩

/-- In such an execution the wait-group counter stays between 0 and `W`. -/
theorem inv_wg_range {W : Nat} {jobs0 : List File} {s : State} (hI : Inv W jobs0 s) :
    0 ≤ s.wg ∧ s.wg ≤ (W : Int) := by
  obtain ⟨iflag, ifailed, icnt, iwg, ilen, ile, iclosed, iexit, ifin, idrained, iwho⟩ := hI
  have hle := sumOver_isDone_le s.workers
  cases hpc : s.mainPc <;>
    simp only [hpc, mainAdded, nSpawned] at iwg ilen ile <;> omega

/-- C2 (as stated, refuted): with `*concurrency = 2 ^ 31`, which is at least 1, the call
`crawlerGroup.Add(int(*concurrency))` panics: the first step of `main` ends the process
with the job still in the queue, no worker started and no `Crawl` call made; and from
the initial state no step other than an interrupt leads anywhere else. -/
theorem crawler_pool_counterexample :
    1 ≤ 2 ^ 31 ∧
    (run NewExponentialBackOff (2 ^ 31) (init oneJob) [Event.main]).map
        (fun s => (s.exit, s.calls, s.jobs.buf, s.workers))
      = some (some Exit.panicked, [], [sampleJob], []) ∧
    ∀ e s, Event.quiet e → step NewExponentialBackOff (2 ^ 31) (init oneJob) e = some s →
      e = Event.main ∧ s.exit = some Exit.panicked ∧ s.calls = [] := by
  refine ⟨by norm_num, rfl, ?_⟩
  intro e s hq h
  cases e with
  | run k => simp [step, init, crawler] at h
  | ret k env => simp [step, init, crawlReturn] at h
  | main =>
    have h2 : step NewExponentialBackOff (2 ^ 31) (init oneJob) Event.main
        = some { init oneJob with exit := some Exit.panicked } := rfl
    rw [h2] at h
    cases h
    exact ⟨rfl, rfl, rfl⟩
  | sigint => exact absurd hq (by simp [Event.quiet])

/-- C2 (amended): with `1 ≤ W < 2 ^ 31` workers, no interrupt and no failing `Crawl`,
take any execution from the point where the jobs are enqueued, under any interleaving.
It has at most `5 N + 2 W + 3` steps; it can always be continued to the normal end of
the process; the wait-group counter stays between 0 and `W`; and its last state is
either one in which some goroutine can still take a step, or the final one: `main` has
returned from `crawlerGroup.Wait`, the wait group is at 0, all `W` workers have left
their loops through `crawlerGroup.Done`, the queue is empty, and the jobs passed to
`Crawl` are the enqueued jobs, each exactly once, each call being made by one of the
`W` workers. -/
theorem crawler_pool_exactly_once (b : BackOff) (W : Nat) (ch : Chan) (tr : List Event)
    (s : State) (hW : 1 ≤ W) (hW31 : W < 2 ^ 31) (hopen : ch.closed = false)
    (hrun : run b W (init ch) tr = some s) (hquiet : ∀ e ∈ tr, Event.quiet e) :
    tr.length ≤ 5 * ch.buf.length + 2 * W + 3 ∧
      (∃ tr' s', (∀ e ∈ tr', Event.quiet e) ∧ run b W s tr' = some s' ∧
        s'.exit = some Exit.returned) ∧
      (0 ≤ s.wg ∧ s.wg ≤ (W : Int)) ∧
      ((s.exit = none ∧ ∃ e : Event, e.quiet ∧ (step b W s e).isSome = true) ∨
        (s.exit = some Exit.returned ∧ s.mainPc = MainPc.returned ∧
          (s.calls.map Prod.snd).Perm ch.buf ∧ (∀ c ∈ s.calls, c.1 < W) ∧
          s.workers.length = W ∧ (∀ w ∈ s.workers, w = WState.done) ∧ s.wg = 0 ∧
          s.jobs.buf = [])) := by
  obtain ⟨hI, hlen⟩ := run_inv tr hW31 (init_inv W ch hopen) hquiet hrun
  refine ⟨?_, ?_, inv_wg_range hI, ?_⟩
  · have : potential W (init ch) = 5 * ch.buf.length + 2 * W + 3 := by
      simp [potential, init, sumOver, mainWeight]
      omega
    omega
  · obtain ⟨tr', s', h1, h2, h3⟩ := inv_completion (b := b) s hW31 hI
    have hI' := (run_inv tr' hW31 hI h1 h2).1
    exact ⟨tr', s', h1, h2, (inv_final hW hI' h3).1⟩
  · by_cases hl : s.exit = none
    · exact Or.inl ⟨hl, inv_progress hI hl⟩
    · exact Or.inr (inv_final hW hI hl)

/-- Witness for C2 (amended): the execution `twoWorkersRun` of two workers on two jobs,
which has exactly `5 * 2 + 2 * 2 + 3` steps and ends with both jobs crawled once. -/
theorem crawler_pool_exactly_once_witness :
    ∃ s, run NewExponentialBackOff 2 (init twoJobs) twoWorkersRun = some s ∧
      s.calls = [(0, sampleJob), (1, sampleJob2)] ∧
      twoWorkersRun.length ≤ 5 * twoJobs.buf.length + 2 * 2 + 3 ∧
      (∃ tr' s', (∀ e ∈ tr', Event.quiet e) ∧
        run NewExponentialBackOff 2 s tr' = some s' ∧ s'.exit = some Exit.returned) ∧
      (0 ≤ s.wg ∧ s.wg ≤ ((2 : Nat) : Int)) ∧
      ((s.exit = none ∧
          ∃ e : Event, e.quiet ∧ (step NewExponentialBackOff 2 s e).isSome = true) ∨
        (s.exit = some Exit.returned ∧ s.mainPc = MainPc.returned ∧
          (s.calls.map Prod.snd).Perm twoJobs.buf ∧ (∀ c ∈ s.calls, c.1 < 2) ∧
          s.workers.length = 2 ∧ (∀ w ∈ s.workers, w = WState.done) ∧ s.wg = 0 ∧
          s.jobs.buf = [])) :=
  ⟨_, rfl, rfl,
    crawler_pool_exactly_once NewExponentialBackOff 2 twoJobs twoWorkersRun _ (by decide)
      (by norm_num) rfl rfl (by
        simp only [twoWorkersRun, List.forall_mem_cons, List.not_mem_nil, false_implies,
          implies_true, and_true]
        simp [Event.quiet, File.Crawl, envOk, envDoFails])⟩

end MCVersions
